import Mathlib

/-!
# Verification of the AI-mindmap graph-state core

Shallow embedding of the in-memory graph store of
`src/client/src/stores/appStore.ts` (the file the claims cite): node /
relation / conversation collections, the history (undo/redo) subsystem, the
conversation-context resolver and the composite-node layout toggle.

Modelling conventions:
* JavaScript `Map` becomes an association list (`List (String × α)`);
  `Map.set` replaces an existing key in place or appends, `Map.delete`
  filters, `Map.get` is a left-to-right lookup.
* `Math.random()`-generated ids and `new Date()` timestamps are external
  inputs; every operation that generates them takes them as explicit
  parameters (in the order the source generates them).
* Numbers are modelled over `ℝ` (positions, trigonometry) and `ℕ`
  (timestamps); `historyIndex` is an `ℤ` because the source uses `-1` as
  the before-any-action sentinel and JavaScript `slice` accepts negative
  bounds.
* Operations of the source file that no claim depends on
  (`addNode`, `updateNode`, `updateRelation`, `selectNode`, `hoverNode`,
  conversation setters, search, `createCompositeNode`, `autoLayout`) are
  not embedded.
-/

namespace MindMap

/-- The closed set of relation types (`RelationType` in the source). -/
inductive RelationType where
  | parentChild
  | supports
  | contradicts
  | prerequisite
  | elaborates
  | references
  | conclusion
  | custom
deriving DecidableEq, Repr

/-- The `label` field of `RELATION_TYPE_LABELS`, used by `addRelation`'s
history description. -/
def relationTypeLabel : RelationType → String
  | .parentChild => "父子"
  | .supports => "支持"
  | .contradicts => "矛盾"
  | .prerequisite => "前提"
  | .elaborates => "细化"
  | .references => "参考"
  | .conclusion => "结论"
  | .custom => "自定义"

/-- Message roles (`user | assistant | system`). -/
inductive Role where
  | user
  | assistant
  | system
deriving DecidableEq, Repr

/-- A chat message (`IMessage`); `_id` is named `mid` here. -/
structure Message where
  mid : String
  role : Role
  content : String
  timestamp : Nat
deriving DecidableEq, Repr

/-- A 2D position; JavaScript doubles are modelled as reals. -/
structure Pos where
  x : ℝ
  y : ℝ

/-- Node data (`NodeData` in the source).  Optional fields
(`compositeChildren?`, `compositeParent?`, `conversationId: string | null`)
become `Option`. -/
structure NodeData where
  id : String
  title : String
  summary : String
  parentIds : List String
  childrenIds : List String
  isRoot : Bool
  isComposite : Bool
  compositeChildren : Option (List String)
  compositeParent : Option String
  hidden : Bool
  conversationId : Option String
  position : Pos
  createdAt : Nat
  updatedAt : Nat
  tags : List String
  expanded : Bool

/-- Relation data (`RelationData` in the source). -/
structure RelationData where
  id : String
  sourceId : String
  targetId : String
  type : RelationType
  description : Option String
  createdAt : Nat
deriving DecidableEq, Repr

/-- The caller-supplied part of a relation (`Omit<RelationData, 'id' | 'createdAt'>`),
the argument of `addRelation`. -/
structure RelationInput where
  sourceId : String
  targetId : String
  type : RelationType
  description : Option String
deriving DecidableEq, Repr

/-- History action tags (`HistoryActionType`). -/
inductive HistoryActionType where
  | create_node
  | update_node
  | delete_node
  | create_relation
  | delete_relation
  | move_node
  | update_conversation
deriving DecidableEq, Repr

/-- Context configuration of a conversation (`contextConfig`). -/
structure ContextConfig where
  includeParentHistory : Bool
  includeRelatedNodes : List String
  customContext : Option String
deriving DecidableEq, Repr

/-- Conversation data (`ConversationData`). -/
structure ConversationData where
  id : String
  nodeId : String
  messages : List Message
  contextConfig : ContextConfig
  createdAt : Nat
  updatedAt : Nat
deriving DecidableEq, Repr

/-- A whole-state snapshot as the history subsystem would store it
(`beforeState` / `afterState` are `any` in the source and are only ever
read back by `set(...)`; per the captured collections they would hold the
node, relation and conversation collections). -/
structure Snapshot where
  nodes : List (String × NodeData)
  relations : List RelationData
  conversations : List (String × ConversationData)

/-- One history record (`HistoryRecord`). -/
structure HistoryRecord where
  id : String
  actionType : HistoryActionType
  timestamp : Nat
  beforeState : Option Snapshot
  afterState : Option Snapshot
  description : String

/-- The store state (`AppState` data fields): node map, relation array,
conversation map, selection, history list and pointer. -/
structure AppState where
  nodes : List (String × NodeData)
  relations : List RelationData
  conversations : List (String × ConversationData)
  selectedNodeId : Option String := none
  hoveredNodeId : Option String := none
  history : List HistoryRecord := []
  historyIndex : Int := -1

/-! ## Association-list Map operations -/

/-- `Map.get`: first binding of the key, scanning left to right. -/
def mapGet (m : List (String × α)) (k : String) : Option α :=
  match m with
  | [] => none
  | (k', v) :: rest => if k' = k then some v else mapGet rest k

/-- `Map.set`: replace the binding in place if the key exists, else append. -/
def mapSet (m : List (String × α)) (k : String) (v : α) : List (String × α) :=
  match m with
  | [] => [(k, v)]
  | (k', v') :: rest => if k' = k then (k, v) :: rest else (k', v') :: mapSet rest k v

/-- `Map.delete`: drop the bindings of the key. -/
def mapDel (m : List (String × α)) (k : String) : List (String × α) :=
  m.filter (fun p => p.1 ≠ k)

/-- The keys of a map, in order. -/
def mapKeys (m : List (String × α)) : List String :=
  m.map Prod.fst

/-- A well-formed `Map` image has pairwise distinct keys. -/
def keysNodup (m : List (String × α)) : Prop :=
  (mapKeys m).Nodup

instance (m : List (String × α)) : Decidable (keysNodup m) := by
  unfold keysNodup; infer_instance

@[simp] theorem mapKeys_nil : mapKeys ([] : List (String × α)) = [] := rfl

@[simp] theorem mapKeys_cons (k : String) (v : α) (m : List (String × α)) :
    mapKeys ((k, v) :: m) = k :: mapKeys m := rfl

theorem mapGet_mapSet (m : List (String × α)) (k k' : String) (v : α) :
    mapGet (mapSet m k v) k' = if k' = k then some v else mapGet m k' := by
  induction m with
  | nil =>
    simp only [mapSet, mapGet]
    by_cases h : k = k'
    · subst h; simp
    · rw [if_neg h, if_neg (fun hh => h hh.symm)]
  | cons p rest ih =>
    obtain ⟨k₀, v₀⟩ := p
    by_cases h0 : k₀ = k
    · subst h0
      by_cases h1 : k' = k₀
      · subst h1; simp [mapSet, mapGet]
      · have h1' : ¬k₀ = k' := fun hh => h1 hh.symm
        simp [mapSet, mapGet, h1, h1']
    · by_cases h2 : k₀ = k'
      · have h3 : ¬k' = k := fun hh => h0 (h2.trans hh)
        simp [mapSet, mapGet, h0, h2, h3]
      · simp [mapSet, mapGet, h0, h2, ih]

theorem mapKeys_mapSet_of_mem (m : List (String × α)) (k : String) (v : α)
    (h : k ∈ mapKeys m) : mapKeys (mapSet m k v) = mapKeys m := by
  induction m with
  | nil => simp at h
  | cons p rest ih =>
    obtain ⟨k₀, v₀⟩ := p
    by_cases h0 : k₀ = k
    · simp [mapSet, h0]
    · simp only [mapKeys_cons, List.mem_cons] at h
      rcases h with h | h
      · exact absurd h.symm h0
      · simp [mapSet, h0, ih h]

theorem mapGet_eq_none_iff (m : List (String × α)) (k : String) :
    mapGet m k = none ↔ k ∉ mapKeys m := by
  induction m with
  | nil => simp [mapGet]
  | cons p rest ih =>
    obtain ⟨k₀, v₀⟩ := p
    by_cases h0 : k₀ = k
    · subst h0; simp [mapGet]
    · have h0' : ¬k = k₀ := fun hh => h0 hh.symm
      simp [mapGet, h0, h0', ih]

theorem mapGet_isSome_of_mem (m : List (String × α)) (k : String)
    (h : k ∈ mapKeys m) : (mapGet m k).isSome := by
  rcases ho : mapGet m k with _ | v
  · exact absurd ((mapGet_eq_none_iff m k).1 ho) (not_not_intro h)
  · rfl

theorem mem_mapKeys_of_get (m : List (String × α)) (k : String) (v : α)
    (h : mapGet m k = some v) : k ∈ mapKeys m := by
  by_contra hk
  rw [← mapGet_eq_none_iff] at hk
  rw [h] at hk
  exact Option.noConfusion hk

/-! ## History subsystem (`pushHistory`, `undo`, `redo`) -/

/-- JavaScript `Array.prototype.slice(0, e)`: a negative end counts from the
end of the array. -/
def jsSlice (l : List α) (e : Int) : List α :=
  if 0 ≤ e then l.take e.toNat else l.take (l.length - (-e).toNat)

/-- JavaScript `arr[i]`: `undefined` (here `none`) for a negative or
out-of-range index. -/
def jsIndex (l : List α) (i : Int) : Option α :=
  if 0 ≤ i then l.get? i.toNat else none

/-- `pushHistory(actionType, description, beforeState?, afterState?)`:
truncate the redo branch (`history.slice(0, historyIndex + 1)`), append the
new record and point the index at it.  The generated record id and the
`Date.now` timestamp are the `hid` / `now` parameters. -/
def pushHistory (s : AppState) (actionType : HistoryActionType)
    (description : String) (beforeState afterState : Option Snapshot)
    (hid : String) (now : Nat) : AppState :=
  let record : HistoryRecord :=
    { id := hid, actionType := actionType, timestamp := now,
      beforeState := beforeState, afterState := afterState,
      description := description }
  let newHistory := jsSlice s.history (s.historyIndex + 1) ++ [record]
  { s with history := newHistory, historyIndex := (newHistory.length : Int) - 1 }

/-- `set(snapshot)` for a whole-state snapshot: replace the captured
collections. -/
def applySnapshot (s : AppState) (snap : Snapshot) : AppState :=
  { s with
    nodes := snap.nodes
    relations := snap.relations
    conversations := snap.conversations }

/-- `undo()`: no-op if `historyIndex < 0`; otherwise apply the record's
`beforeState` when present, then decrement the index.  (If the index points
past the list the source would throw on `record.beforeState` before any
`set`, leaving the state unchanged; the model returns the state unchanged.) -/
def undo (s : AppState) : AppState :=
  if 0 ≤ s.historyIndex then
    match jsIndex s.history s.historyIndex with
    | some record =>
      let s' := match record.beforeState with
        | some snap => applySnapshot s snap
        | none => s
      { s' with historyIndex := s.historyIndex - 1 }
    | none => s
  else s

/-- `redo()`: no-op if the index is at the last record; otherwise apply the
next record's `afterState` when present, then increment the index. -/
def redo (s : AppState) : AppState :=
  if s.historyIndex < (s.history.length : Int) - 1 then
    match jsIndex s.history (s.historyIndex + 1) with
    | some record =>
      let s' := match record.afterState with
        | some snap => applySnapshot s snap
        | none => s
      { s' with historyIndex := s.historyIndex + 1 }
    | none => s
  else s

/-! ## Node and relation operations -/

/-- `calculateNodePosition(parentNode, siblingIndex, siblingCount)`.
`siblingCount - 1 || 1` is JavaScript: the denominator is `1` exactly when
`siblingCount - 1` (an integer, possibly `-1`) is `0`. -/
noncomputable def calculateNodePosition (parentNode : Option NodeData)
    (siblingIndex siblingCount : Nat) : Pos :=
  match parentNode with
  | none => ⟨400, 100⟩
  | some parent =>
    let offsetX : ℝ := 280
    let offsetY : ℝ := 120
    let spreadAngle : ℝ := if siblingCount > 1 then 60 else 0
    let denom : Int :=
      if (siblingCount : Int) - 1 = 0 then 1 else (siblingCount : Int) - 1
    let angleStep : ℝ := spreadAngle / (denom : ℝ)
    let startAngle : ℝ := -spreadAngle / 2
    let angle : ℝ := (startAngle + angleStep * (siblingIndex : ℝ)) * Real.pi / 180
    ⟨parent.position.x + offsetX,
     parent.position.y +
       Real.sin angle * offsetY * (if siblingCount > 1 then 1.5 else 0)⟩

/-- The node object `createRootNode` inserts. -/
noncomputable def rootNodeVal (s : AppState) (id : String) (now : Nat)
    (title : String) : NodeData :=
  { id := id, title := title, summary := "", parentIds := [],
    childrenIds := [], isRoot := true, isComposite := false,
    compositeChildren := none, compositeParent := none, hidden := false,
    conversationId := none,
    position := ⟨100 + (((s.nodes.map Prod.snd).filter (·.isRoot)).length : ℝ) * 300, 100⟩,
    createdAt := now, updatedAt := now, tags := [], expanded := true }

/-- `createRootNode(title)`.  The generated node id is the `id` parameter,
the generated history-record id is `hid`. -/
noncomputable def createRootNode (s : AppState) (id hid : String) (now : Nat)
    (title : String := "新对话") : String × AppState :=
  let s1 := { s with nodes := mapSet s.nodes id (rootNodeVal s id now title),
                     selectedNodeId := some id }
  (id, pushHistory s1 .create_node ("创建根节点: " ++ title) none none hid now)

/-- `list.forEach((childId, idx) => { const c = map.get(childId); if (c)
map.set(childId, f(idx, childId, c)); })` — the indexed update loop used by
the sibling repositioning, the parent detachment and both composite
branches. -/
def updateIdx (f : Nat → String → NodeData → NodeData) :
    Nat → List String → List (String × NodeData) → List (String × NodeData)
  | _, [], m => m
  | n, cid :: rest, m =>
    let m' := match mapGet m cid with
      | some nd => mapSet m cid (f n cid nd)
      | none => m
    updateIdx f (n + 1) rest m'

/-- The node object `createChildNode` inserts (position passed in as
computed from the parent). -/
noncomputable def childNodeVal (parentId id : String) (now : Nat)
    (title : String) (position : Pos) : NodeData :=
  { id := id, title := title, summary := "", parentIds := [parentId],
    childrenIds := [], isRoot := false, isComposite := false,
    compositeChildren := none, compositeParent := none, hidden := false,
    conversationId := none, position := position, createdAt := now,
    updatedAt := now, tags := [], expanded := true }

/-- `createChildNode(parentId, title)`: returns `''` without mutating when
the parent is missing; otherwise inserts the child, appends it to the
parent's `childrenIds`, repositions the pre-existing children
(`allChildren` is the parent's `childrenIds` array as read before the
append) and records one parent-child relation. -/
noncomputable def createChildNode (s : AppState) (parentId : String)
    (id relationId hid : String) (now : Nat)
    (title : String := "新分支") : String × AppState :=
  match mapGet s.nodes parentId with
  | none => ("", s)
  | some parent =>
    let newNode := childNodeVal parentId id now title
      (calculateNodePosition (some parent) parent.childrenIds.length
        (parent.childrenIds.length + 1))
    let newRelation : RelationData :=
      { id := relationId, sourceId := parentId, targetId := id,
        type := .parentChild, description := none, createdAt := now }
    let nodes1 := mapSet s.nodes id newNode
    let nodes3 :=
      match mapGet nodes1 parentId with
      | none => nodes1
      | some updatedParent =>
        let nodes2 := mapSet nodes1 parentId
          { updatedParent with childrenIds := updatedParent.childrenIds ++ [id] }
        let allChildren := updatedParent.childrenIds
        updateIdx (fun idx _ child =>
            { child with position :=
                calculateNodePosition (some updatedParent) idx allChildren.length })
          0 allChildren nodes2
    let s1 := { s with nodes := nodes3,
                       relations := s.relations ++ [newRelation],
                       selectedNodeId := some id }
    (id, pushHistory s1 .create_node ("创建子节点: " ++ title) none none hid now)

/-- The recursive helper of `deleteNode`: depth-first removal of a node and
everything reachable through `childrenIds`, deleting each removed node's
conversation.  `fuel` bounds the recursion depth; the source has no bound
and diverges on a `childrenIds` cycle, while any `fuel` larger than the
depth of the (acyclic) parent-child forest reproduces it exactly —
`deleteNode` passes `nodes.length + 1`, enough for every acyclic state. -/
def deleteRecursive :
    Nat → String →
    List (String × NodeData) × List (String × ConversationData) →
    List (String × NodeData) × List (String × ConversationData)
  | 0, _, mc => mc
  | fuel + 1, nodeId, (m, c) =>
    match mapGet m nodeId with
    | none => (m, c)
    | some n =>
      let mc := n.childrenIds.foldl
        (fun mc cid => deleteRecursive fuel cid mc) (m, c)
      let c' := match n.conversationId with
        | some convId => mapDel mc.2 convId
        | none => mc.2
      (mapDel mc.1 nodeId, c')

/-- `deleteNode(id)`: run the recursive delete, strip `id` from every
parent's `childrenIds`, and filter out the relations whose source or target
is `id` (the filter runs whether or not the node exists). -/
def deleteNode (s : AppState) (id hid : String) (now : Nat) : AppState :=
  let base :=
    match mapGet s.nodes id with
    | some node =>
      let mc := deleteRecursive (s.nodes.length + 1) id (s.nodes, s.conversations)
      let nodes2 := updateIdx
        (fun _ _ parent =>
          { parent with childrenIds := parent.childrenIds.filter (fun cid => cid != id) })
        0 node.parentIds mc.1
      (nodes2, mc.2)
    | none => (s.nodes, s.conversations)
  let newRelations := s.relations.filter
    (fun r => r.sourceId != id && r.targetId != id)
  let s1 := { s with
    nodes := base.1
    relations := newRelations
    conversations := base.2
    selectedNodeId :=
      if s.selectedNodeId = some id then none else s.selectedNodeId }
  pushHistory s1 .delete_node "删除节点" none none hid now

/-- `addRelation(relation)`: append unconditionally and return the fresh id
(the source performs no endpoint validation). -/
def addRelation (s : AppState) (relation : RelationInput) (id hid : String)
    (now : Nat) : String × AppState :=
  let newRelation : RelationData :=
    { id := id, sourceId := relation.sourceId, targetId := relation.targetId,
      type := relation.type, description := relation.description,
      createdAt := now }
  let s1 := { s with relations := s.relations ++ [newRelation] }
  (id, pushHistory s1 .create_relation
    ("创建关系: " ++ relationTypeLabel relation.type) none none hid now)

/-- `deleteRelation(id)`: remove the relation with that id (nothing else). -/
def deleteRelation (s : AppState) (id hid : String) (now : Nat) : AppState :=
  pushHistory { s with relations := s.relations.filter (fun r => r.id != id) }
    .delete_relation "删除关系" none none hid now

/-- `getRelationsForNode(nodeId)`: every relation touching the node. -/
def getRelationsForNode (s : AppState) (nodeId : String) : List RelationData :=
  s.relations.filter (fun r => r.sourceId == nodeId || r.targetId == nodeId)

/-! ## Context resolver (`getConversationContext`) -/

/-- A context message: role plus content, as returned to the chat caller. -/
structure CtxMessage where
  role : Role
  content : String
deriving DecidableEq, Repr

/-- `collectContext(currentNodeId, depth)` with the mutable
`visitedNodes` / `contextMessages` threaded explicitly.  The source guard is
`visited.has(id) || depth > 20`; calls start at depth 0, so `fuel = 21 -
depth` and the `fuel = 0` case is exactly `depth > 20`. -/
def collectContext (s : AppState) :
    Nat → String → List String × List CtxMessage →
    List String × List CtxMessage
  | 0, _, acc => acc
  | fuel + 1, currentNodeId, (visited, msgs) =>
    if currentNodeId ∈ visited then (visited, msgs)
    else
      let visited := currentNodeId :: visited
      match mapGet s.nodes currentNodeId with
      | none => (visited, msgs)
      | some currentNode =>
        let acc := currentNode.parentIds.foldl
          (fun acc parentId => collectContext s fuel parentId acc)
          (visited, msgs)
        let acc := s.relations.foldl
          (fun acc r =>
            if r.targetId = currentNodeId ∧ r.type ≠ RelationType.parentChild then
              collectContext s fuel r.sourceId acc
            else acc) acc
        match currentNode.conversationId with
        | none => acc
        | some convId =>
          match mapGet s.conversations convId with
          | none => acc
          | some conv =>
            if conv.messages.length > 0 then
              (acc.1, acc.2 ++
                ⟨Role.system, "[节点: " ++ currentNode.title ++ "]"⟩ ::
                  conv.messages.map (fun msg => ⟨msg.role, msg.content⟩))
            else acc

/-- `getConversationContext(nodeId)`: run the collector from depth 0 on
empty accumulators. -/
def getConversationContext (s : AppState) (nodeId : String) : List CtxMessage :=
  (collectContext s 21 nodeId ([], [])).2

/-! ## Composite-node toggle (`expandCompositeNode`) -/

/-- The collapse branch's per-member update of `expandCompositeNode`. -/
def collapseMemberFn (nodeId : String) : Nat → String → NodeData → NodeData :=
  fun _ _ child => { child with hidden := true, compositeParent := some nodeId }

/-- The expand branch's per-member update of `expandCompositeNode`: fan
layout around the composite's position (`node`), with the layout constants
computed from the member count. -/
noncomputable def expandMemberFn (node : NodeData) (members : List String)
    (nodeId : String) : Nat → String → NodeData → NodeData :=
  fun index _ child =>
    let childCount := members.length
    let centerX := node.position.x
    let centerY := node.position.y
    let baseRadius : ℝ := 200
    let radius : ℝ := max baseRadius (baseRadius + ((childCount : ℝ) - 3) * 30)
    let spreadAngle : ℝ := min 180 (60 + (childCount : ℝ) * 15)
    let startAngle : ℝ := -spreadAngle / 2
    let angleStep : ℝ :=
      if childCount > 1 then spreadAngle / ((childCount : ℝ) - 1) else 0
    let angle : ℝ := (startAngle + angleStep * (index : ℝ)) * Real.pi / 180
    { child with
      hidden := false
      compositeParent := some nodeId
      position := ⟨centerX + Real.cos angle * radius,
                   centerY + Real.sin angle * radius⟩ }

/-- `expandCompositeNode(nodeId)`: when the node exists, is composite and
has a member list, collapse (members hidden) if currently expanded, else
expand members in a fan around the composite's position; in either case one
`update_node` history record is pushed. -/
noncomputable def expandCompositeNode (s : AppState) (nodeId hid : String)
    (now : Nat) : AppState :=
  let newNodes :=
    match mapGet s.nodes nodeId with
    | none => s.nodes
    | some node =>
      if node.isComposite then
        match node.compositeChildren with
        | none => s.nodes
        | some members =>
          if node.expanded then
            mapSet (updateIdx (collapseMemberFn nodeId) 0 members s.nodes)
              nodeId { node with expanded := false }
          else
            mapSet (updateIdx (expandMemberFn node members nodeId) 0 members s.nodes)
              nodeId { node with expanded := true }
      else s.nodes
  pushHistory { s with nodes := newNodes } .update_node
    "切换复合节点展开状态" none none hid now

/-! ## Specification-side definitions -/

/-- The parent-child structural invariant, relation side: a parent-child
relation's endpoints exist and appear in each other's ownership lists. -/
def pcListed (s : AppState) (r : RelationData) : Prop :=
  (∃ p, mapGet s.nodes r.sourceId = some p ∧ r.targetId ∈ p.childrenIds) ∧
  (∃ ch, mapGet s.nodes r.targetId = some ch ∧ r.sourceId ∈ ch.parentIds)

/-- The parent-child structural invariant, node side: every entry of
`parentIds` / `childrenIds` is backed by a parent-child relation. -/
def linkBacked (s : AppState) (k : String) (nd : NodeData) : Prop :=
  (∀ pid ∈ nd.parentIds, ∃ r ∈ s.relations,
    r.type = RelationType.parentChild ∧ r.sourceId = pid ∧ r.targetId = k) ∧
  (∀ cid ∈ nd.childrenIds, ∃ r ∈ s.relations,
    r.type = RelationType.parentChild ∧ r.sourceId = k ∧ r.targetId = cid)

/-- Spec §3 invariant: the node ownership lists and the parent-child
relation set are mutually consistent. -/
def consistent (s : AppState) : Prop :=
  (∀ r ∈ s.relations, r.type = RelationType.parentChild → pcListed s r) ∧
  (∀ kn ∈ s.nodes, linkBacked s kn.1 kn.2)

instance decExOptionAnd (o : Option α) (P : α → Prop) [DecidablePred P] :
    Decidable (∃ a, o = some a ∧ P a) :=
  match o with
  | none => isFalse (by simp)
  | some a => decidable_of_iff (P a) (by simp)

instance (s : AppState) (r : RelationData) : Decidable (pcListed s r) := by
  unfold pcListed; infer_instance

instance (s : AppState) (k : String) (nd : NodeData) :
    Decidable (linkBacked s k nd) := by
  unfold linkBacked; infer_instance

instance (s : AppState) : Decidable (consistent s) := by
  unfold consistent; infer_instance

/-- Lookup form of `consistent` (equivalent when node keys are distinct). -/
def consistentGet (s : AppState) : Prop :=
  (∀ r ∈ s.relations, r.type = RelationType.parentChild → pcListed s r) ∧
  (∀ k nd, mapGet s.nodes k = some nd → linkBacked s k nd)

/-- The ownership links of a node (the only node fields `consistent` reads). -/
def nodeLinks (nd : NodeData) : List String × List String :=
  (nd.parentIds, nd.childrenIds)

/-- The context block a node contributes when it has a non-empty
conversation: one system marker naming the node, then its messages. -/
def nodeBlock (s : AppState) (nid : String) : List CtxMessage :=
  match mapGet s.nodes nid with
  | none => []
  | some node =>
    match node.conversationId with
    | none => []
    | some convId =>
      match mapGet s.conversations convId with
      | none => []
      | some conv =>
        if conv.messages.length > 0 then
          ⟨Role.system, "[节点: " ++ node.title ++ "]"⟩ ::
            conv.messages.map (fun msg => ⟨msg.role, msg.content⟩)
        else []

/-- Instrumented twin of `collectContext`: same traversal, but recording the
order in which nodes contribute their blocks instead of the messages.  The
second component is the list of contributions made by this call (the
caller's accumulated order is not threaded through). -/
def visitOrder (s : AppState) : Nat → String → List String → List String × List String
  | 0, _, visited => (visited, [])
  | fuel + 1, nid, visited =>
    if nid ∈ visited then (visited, [])
    else
      let visited := nid :: visited
      match mapGet s.nodes nid with
      | none => (visited, [])
      | some node =>
        let acc := node.parentIds.foldl
          (fun (acc : List String × List String) pid =>
            let r := visitOrder s fuel pid acc.1
            (r.1, acc.2 ++ r.2)) (visited, [])
        let acc := s.relations.foldl
          (fun (acc : List String × List String) r =>
            if r.targetId = nid ∧ r.type ≠ RelationType.parentChild then
              let r' := visitOrder s fuel r.sourceId acc.1
              (r'.1, acc.2 ++ r'.2)
            else acc) acc
        if nodeBlock s nid ≠ [] then (acc.1, acc.2 ++ [nid]) else acc

/-- The order in which `getConversationContext` emits node blocks. -/
def contextOrder (s : AppState) (nid : String) : List String :=
  (visitOrder s 21 nid []).2

/-- `n` consecutive `pushHistory` calls (the `k`-th generated record id is
`toString k`), to exercise history growth. -/
def pushRepeat (s : AppState) : Nat → AppState
  | 0 => s
  | k + 1 => pushHistory (pushRepeat s k) .update_node "" none none
      (toString (k + 1)) 0

/-! ## Concrete states used by the claim instances -/

/-- A plain node for concrete test states. -/
noncomputable def mkNode (id : String) (parentIds childrenIds : List String)
    (conversationId : Option String := none) : NodeData :=
  { id := id, title := id, summary := "", parentIds := parentIds,
    childrenIds := childrenIds, isRoot := parentIds.isEmpty,
    isComposite := false, compositeChildren := none, compositeParent := none,
    hidden := false, conversationId := conversationId, position := ⟨0, 0⟩,
    createdAt := 0, updatedAt := 0, tags := [], expanded := true }

/-- A conversation holding one user message. -/
def mkConv (id nodeId content : String) : ConversationData :=
  { id := id, nodeId := nodeId,
    messages := [{ mid := id ++ "m", role := .user, content := content, timestamp := 0 }],
    contextConfig := { includeParentHistory := true, includeRelatedNodes := [], customContext := none },
    createdAt := 0, updatedAt := 0 }

/-- The empty initial store state. -/
def initialState : AppState :=
  { nodes := [], relations := [], conversations := [] }

/-- C1: chain P → X → Y (parent-child) plus a separate node W and a
`supports` relation Y → W; X and Y own conversations. -/
noncomputable def cexDeleteState : AppState :=
  { nodes := [("P", mkNode "P" [] ["X"]),
              ("X", mkNode "X" ["P"] ["Y"] (some "cx")),
              ("Y", mkNode "Y" ["X"] [] (some "cy")),
              ("W", mkNode "W" [] [])]
    relations := [⟨"rPX", "P", "X", .parentChild, none, 0⟩,
                  ⟨"rXY", "X", "Y", .parentChild, none, 0⟩,
                  ⟨"rYW", "Y", "W", .supports, none, 0⟩]
    conversations := [("cx", mkConv "cx" "X" "x1"), ("cy", mkConv "cy" "Y" "y1")] }

/-- C3: chain A → B → C via `parentIds` / `childrenIds`, each node with a
one-message conversation; the relation list is left as a parameter. -/
noncomputable def chainState (rs : List RelationData) : AppState :=
  { nodes := [("A", mkNode "A" [] ["B"] (some "ca")),
              ("B", mkNode "B" ["A"] ["C"] (some "cb")),
              ("C", mkNode "C" ["B"] [] (some "cc"))]
    relations := rs
    conversations := [("ca", mkConv "ca" "A" "a1"),
                      ("cb", mkConv "cb" "B" "b1"),
                      ("cc", mkConv "cc" "C" "c1")] }

/-- C4: a two-node `supports` cycle A ⇄ B, both with conversations. -/
noncomputable def cycleState : AppState :=
  { nodes := [("A", mkNode "A" [] [] (some "ca")),
              ("B", mkNode "B" [] [] (some "cb"))]
    relations := [⟨"r1", "A", "B", .supports, none, 0⟩,
                  ⟨"r2", "B", "A", .supports, none, 0⟩]
    conversations := [("ca", mkConv "ca" "A" "a1"),
                      ("cb", mkConv "cb" "B" "b1")] }

/-- C5: two unrelated nodes (consistent, no relations). -/
noncomputable def twoNodeState : AppState :=
  { nodes := [("A", mkNode "A" [] []), ("B", mkNode "B" [] [])]
    relations := []
    conversations := [] }

/-- C5: A parent of B with the matching parent-child relation. -/
noncomputable def parentChildState : AppState :=
  { nodes := [("A", mkNode "A" [] ["B"]), ("B", mkNode "B" ["A"] [])]
    relations := [⟨"r1", "A", "B", .parentChild, none, 0⟩]
    conversations := [] }

/-- C8: a composite node K (collapsed) whose single member m is visible —
the inconsistent visibility state the toggle does not round-trip. -/
noncomputable def compositeMismatchState : AppState :=
  { nodes := [("K", { mkNode "K" [] [] with
                      isComposite := true
                      compositeChildren := some ["m"]
                      expanded := false }),
              ("m", { mkNode "m" [] [] with hidden := false, compositeParent := some "K" })]
    relations := []
    conversations := [] }

/-- C7: a composite node K at the origin with three hidden members. -/
noncomputable def compositeFanState : AppState :=
  { nodes := [("K", { mkNode "K" [] [] with
                      isComposite := true
                      compositeChildren := some ["m0", "m1", "m2"]
                      expanded := false }),
              ("m0", { mkNode "m0" [] [] with hidden := true, compositeParent := some "K" }),
              ("m1", { mkNode "m1" [] [] with hidden := true, compositeParent := some "K" }),
              ("m2", { mkNode "m2" [] [] with hidden := true, compositeParent := some "K" })]
    relations := []
    conversations := [] }

/-- The fan layout in the claim's form: for member `i` of `N`, radius
`max(200, 200 + (N-3)*30)`, spread `min(180, 60 + 15N)`, step
`spread/(N-1)` (`0` when `N = 1`), angle `-spread/2 + step*i` in degrees
converted to radians. -/
noncomputable def fanPosition (center : Pos) (N i : Nat) : Pos :=
  let radius : ℝ := max 200 (200 + ((N : ℝ) - 3) * 30)
  let spread : ℝ := min 180 (60 + 15 * (N : ℝ))
  let step : ℝ := if N = 1 then 0 else spread / ((N : ℝ) - 1)
  let angle : ℝ := (-spread / 2 + step * (i : ℝ)) * Real.pi / 180
  ⟨center.x + Real.cos angle * radius, center.y + Real.sin angle * radius⟩

/-! ## History lemmas -/

@[simp] theorem pushHistory_nodes (s : AppState) (a d b af h n) :
    (pushHistory s a d b af h n).nodes = s.nodes := rfl

@[simp] theorem pushHistory_relations (s : AppState) (a d b af h n) :
    (pushHistory s a d b af h n).relations = s.relations := rfl

@[simp] theorem pushHistory_conversations (s : AppState) (a d b af h n) :
    (pushHistory s a d b af h n).conversations = s.conversations := rfl

theorem jsSlice_of_nonneg (l : List α) (e : Int) (h : 0 ≤ e) :
    jsSlice l e = l.take e.toNat := by
  simp [jsSlice, h]

/-- With a well-formed index (`-1 ≤ historyIndex < history.length`),
`pushHistory` truncates the redo branch, appends the new record and
advances the index by exactly one. -/
theorem pushHistory_truncate_append (s : AppState) (a : HistoryActionType)
    (d : String) (b af : Option Snapshot) (hid : String) (now : Nat)
    (hlo : -1 ≤ s.historyIndex) (hhi : s.historyIndex < (s.history.length : Int)) :
    (pushHistory s a d b af hid now).history =
      s.history.take (s.historyIndex + 1).toNat ++
        [{ id := hid, actionType := a, timestamp := now, beforeState := b,
           afterState := af, description := d }] ∧
    (pushHistory s a d b af hid now).historyIndex = s.historyIndex + 1 := by
  have h0 : (0 : Int) ≤ s.historyIndex + 1 := by omega
  have hsl : jsSlice s.history (s.historyIndex + 1) =
      s.history.take (s.historyIndex + 1).toNat := jsSlice_of_nonneg _ _ h0
  have hlen : (s.history.take (s.historyIndex + 1).toNat).length =
      (s.historyIndex + 1).toNat := by
    rw [List.length_take]
    omega
  constructor
  · simp [pushHistory, hsl]
  · simp [pushHistory, hsl, hlen]
    omega

/-- Record ids and index after `n` repeated pushes from the initial state:
all `n` records are present (ids `"1" … "n"` in push order) and the index
sits on the last one.  In particular nothing is ever evicted. -/
theorem pushRepeat_ids : ∀ n : Nat,
    (pushRepeat initialState n).history.map (·.id) =
      (List.range n).map (fun k => toString (k + 1)) ∧
    (pushRepeat initialState n).historyIndex = (n : Int) - 1 := by
  intro n
  induction n with
  | zero => exact ⟨rfl, rfl⟩
  | succ k ih =>
    obtain ⟨hmap, hidx⟩ := ih
    have hlen : (pushRepeat initialState k).history.length = k := by
      have := congrArg List.length hmap
      simpa using this
    obtain ⟨hh, hi⟩ := pushHistory_truncate_append (pushRepeat initialState k)
      .update_node "" none none (toString (k + 1)) 0
      (by rw [hidx]; omega) (by rw [hidx, hlen]; omega)
    have htk : ((pushRepeat initialState k).historyIndex + 1).toNat = k := by
      rw [hidx]; omega
    rw [htk, List.take_of_length_le (le_of_eq hlen)] at hh
    constructor
    · show (pushHistory (pushRepeat initialState k) _ _ _ _ _ _).history.map (·.id) = _
      rw [hh, List.map_append, hmap, List.range_succ, List.map_append]
      simp
    · show (pushHistory (pushRepeat initialState k) _ _ _ _ _ _).historyIndex = _
      rw [hi, hidx]
      push_cast
      omega

/-! ## Claim C9 (history boundedness) -/

/-- C9 counterexample: 101 pushes from the initial state leave all 101
records in the history — the record pushed first (id `"1"`) is still at the
front, so no eviction at any fixed maximum size ≤ 100 ever happened
(the source `pushHistory` has no size cap at all). -/
theorem pushHistory_unbounded_cex :
    ((pushRepeat initialState 101).history.map (·.id)).length = 101 ∧
    ((pushRepeat initialState 101).history.map (·.id)).head? = some "1" := by
  rw [(pushRepeat_ids 101).1]
  constructor
  · simp
  · decide

/-- C9 amended: `pushHistory` truncates the records after the current
index, appends the new record and advances the index, but the cited
implementation never evicts from the front: after `n` mutations from the
initial state the history length is exactly `n` (unbounded growth). -/
theorem pushHistory_no_eviction_amended :
    (∀ n : Nat, (pushRepeat initialState n).history.length = n ∧
      (pushRepeat initialState n).historyIndex = (n : Int) - 1) ∧
    (∀ (s : AppState) (a d b af hid now), -1 ≤ s.historyIndex →
      s.historyIndex < (s.history.length : Int) →
      (pushHistory s a d b af hid now).history =
        s.history.take (s.historyIndex + 1).toNat ++
          [{ id := hid, actionType := a, timestamp := now, beforeState := b,
             afterState := af, description := d }] ∧
      (pushHistory s a d b af hid now).historyIndex = s.historyIndex + 1) := by
  constructor
  · intro n
    obtain ⟨hmap, hidx⟩ := pushRepeat_ids n
    refine ⟨?_, hidx⟩
    have := congrArg List.length hmap
    simpa using this
  · intro s a d b af hid now hlo hhi
    exact pushHistory_truncate_append s a d b af hid now hlo hhi

/-- Witness for the amended C9 theorem at concrete inputs. -/
theorem pushHistory_no_eviction_amended_witness :
    (pushRepeat initialState 3).history.length = 3 ∧
    (-1 : Int) ≤ initialState.historyIndex ∧
    (pushHistory initialState .update_node "d" none none "h" 0).historyIndex =
      initialState.historyIndex + 1 := by
  refine ⟨(pushHistory_no_eviction_amended.1 3).1, by decide, ?_⟩
  exact (pushHistory_no_eviction_amended.2 initialState .update_node "d" none none
    "h" 0 (by decide) (by decide)).2

/-! ## Claim C2 (undo/redo inverse law) -/

/-- C2: the undo/redo inverse law fails on the code.  Evaluating the store
at the failing input: from the empty initial state, `createRootNode`
creates node `"r1"`, but the history record it pushes carries no
`beforeState` snapshot (no mutator supplies one), so `undo()` only
decrements `historyIndex` and leaves the node, relation and conversation
collections exactly as after the mutation — the created node is still
present although the pre-operation state had none, and `redo()` merely
restores the index. -/
theorem undo_does_not_restore_state :
    mapGet initialState.nodes "r1" = none ∧
    (mapGet (undo (createRootNode initialState "r1" "h1" 0 "t").2).nodes "r1").isSome = true ∧
    (undo (createRootNode initialState "r1" "h1" 0 "t").2).nodes =
      (createRootNode initialState "r1" "h1" 0 "t").2.nodes ∧
    (undo (createRootNode initialState "r1" "h1" 0 "t").2).relations =
      (createRootNode initialState "r1" "h1" 0 "t").2.relations ∧
    (undo (createRootNode initialState "r1" "h1" 0 "t").2).conversations =
      (createRootNode initialState "r1" "h1" 0 "t").2.conversations ∧
    (undo (createRootNode initialState "r1" "h1" 0 "t").2).historyIndex = -1 ∧
    redo (undo (createRootNode initialState "r1" "h1" 0 "t").2) =
      (createRootNode initialState "r1" "h1" 0 "t").2 :=
  ⟨rfl, rfl, rfl, rfl, rfl, rfl, rfl⟩

/-! ## Claim C6 (addRelation endpoint validation) -/

/-- C6 counterexample: on the empty state (neither endpoint exists),
`addRelation` returns the fresh non-empty id and appends the relation —
it does not fail. -/
theorem addRelation_missing_endpoint_cex :
    mapGet initialState.nodes "a" = none ∧
    (addRelation initialState ⟨"a", "b", .supports, none⟩ "rid" "h" 0).1 = "rid" ∧
    ¬((addRelation initialState ⟨"a", "b", .supports, none⟩ "rid" "h" 0).1 = "") ∧
    (addRelation initialState ⟨"a", "b", .supports, none⟩ "rid" "h" 0).2.relations =
      [⟨"rid", "a", "b", .supports, none, 0⟩] :=
  ⟨rfl, rfl, by decide, by decide⟩

/-- C6 amended: `addRelation` performs no endpoint validation: even when
the source node does not exist it appends the relation, returns the fresh
id, and leaves the node collection unchanged (it never throws). -/
theorem addRelation_missing_endpoint_appends (s : AppState)
    (rel : RelationInput) (id hid : String) (now : Nat)
    (_hmiss : mapGet s.nodes rel.sourceId = none) :
    (addRelation s rel id hid now).1 = id ∧
    (addRelation s rel id hid now).2.relations =
      s.relations ++ [⟨id, rel.sourceId, rel.targetId, rel.type, rel.description, now⟩] ∧
    (addRelation s rel id hid now).2.nodes = s.nodes :=
  ⟨rfl, rfl, rfl⟩

/-- Witness for the amended C6 theorem. -/
theorem addRelation_missing_endpoint_appends_witness :
    mapGet initialState.nodes "a" = none ∧
    (addRelation initialState ⟨"a", "b", .supports, none⟩ "rid" "h" 0).2.relations =
      initialState.relations ++ [⟨"rid", "a", "b", .supports, none, 0⟩] :=
  ⟨rfl, (addRelation_missing_endpoint_appends initialState ⟨"a", "b", .supports, none⟩
    "rid" "h" 0 rfl).2.1⟩

/-! ## Claim C1 (cascade delete) -/

/-- C1 counterexample: in `cexDeleteState`, deleting `X` also deletes its
child `Y`, yet the `supports` relation `rYW` with source `Y` survives the
relation filter (which only tests against `X`), so a relation in the store
references a deleted node. -/
theorem deleteNode_dangling_relation_cex :
    (⟨"rYW", "Y", "W", .supports, none, 0⟩ : RelationData) ∈
      (deleteNode cexDeleteState "X" "h" 0).relations ∧
    (mapGet (deleteNode cexDeleteState "X" "h" 0).nodes "Y").isNone = true := by
  exact ⟨by decide, by decide⟩

/-- C1 amended: `deleteNode(X)` removes `X` and every `childrenIds`
descendant together with their conversations and detaches `X` from its
parents, but it filters only the relations whose source or target is `X`
itself; relations touching deleted descendants survive.  The first
conjunct states the relation filter for every state; the rest evaluates
a full cascade on the concrete chain `P → X → Y` with side relation
`Y → W`. -/
theorem deleteNode_relation_filter_amended :
    (∀ (s : AppState) (id hid : String) (now : Nat),
      (deleteNode s id hid now).relations =
        s.relations.filter (fun r => r.sourceId != id && r.targetId != id)) ∧
    (mapGet (deleteNode cexDeleteState "X" "h" 0).nodes "X").isNone = true ∧
    (mapGet (deleteNode cexDeleteState "X" "h" 0).nodes "Y").isNone = true ∧
    (mapGet (deleteNode cexDeleteState "X" "h" 0).nodes "P").map (·.childrenIds) =
      some [] ∧
    (deleteNode cexDeleteState "X" "h" 0).conversations = [] ∧
    (deleteNode cexDeleteState "X" "h" 0).relations =
      [⟨"rYW", "Y", "W", .supports, none, 0⟩] :=
  ⟨fun _ _ _ _ => rfl, by decide, by decide, by decide, by decide, by decide⟩

/-! ## Claim C10 (no-op expand still pushes history) -/

/-- C10: when the target node is absent, not composite, or has no
`compositeChildren`, `expandCompositeNode` leaves the node, relation and
conversation collections unchanged but still pushes exactly one
`update_node` history record and advances `historyIndex` by one (stated
for states whose index is in the well-formed range `[-1, length)`, the
range every reachable state satisfies). -/
theorem expandCompositeNode_noop_still_pushes (s : AppState)
    (nid hid : String) (now : Nat)
    (hguard : ∀ c, mapGet s.nodes nid = some c →
      c.isComposite = false ∨ c.compositeChildren = none)
    (hlo : -1 ≤ s.historyIndex)
    (hhi : s.historyIndex < (s.history.length : Int)) :
    (expandCompositeNode s nid hid now).nodes = s.nodes ∧
    (expandCompositeNode s nid hid now).relations = s.relations ∧
    (expandCompositeNode s nid hid now).conversations = s.conversations ∧
    (expandCompositeNode s nid hid now).history =
      s.history.take (s.historyIndex + 1).toNat ++
        [{ id := hid, actionType := .update_node, timestamp := now,
           beforeState := none, afterState := none,
           description := "切换复合节点展开状态" }] ∧
    (expandCompositeNode s nid hid now).historyIndex = s.historyIndex + 1 := by
  have hnodes : (expandCompositeNode s nid hid now).nodes = s.nodes := by
    rcases hc : mapGet s.nodes nid with _ | c
    · simp [expandCompositeNode, hc]
    · rcases hguard c hc with h | h
      · simp [expandCompositeNode, hc, h]
      · rcases hcomp : c.isComposite with _ | _
        · simp [expandCompositeNode, hc, hcomp]
        · simp [expandCompositeNode, hc, hcomp, h]
  obtain ⟨hh, hi⟩ := pushHistory_truncate_append
    { s with nodes := (expandCompositeNode s nid hid now).nodes }
    .update_node "切换复合节点展开状态" none none hid now (by simpa) (by simpa)
  refine ⟨hnodes, rfl, rfl, ?_, ?_⟩
  · show (pushHistory _ _ _ _ _ _ _).history = _
    convert hh using 2
  · show (pushHistory _ _ _ _ _ _ _).historyIndex = _
    convert hi using 2

/-- Witness for C10 at a concrete input (absent node id on the empty
state). -/
theorem expandCompositeNode_noop_still_pushes_witness :
    (expandCompositeNode initialState "Z" "h" 7).nodes = initialState.nodes ∧
    (expandCompositeNode initialState "Z" "h" 7).historyIndex =
      initialState.historyIndex + 1 :=
  ⟨(expandCompositeNode_noop_still_pushes initialState "Z" "h" 7
      (fun c hc => Option.noConfusion hc) (by decide) (by decide)).1,
   (expandCompositeNode_noop_still_pushes initialState "Z" "h" 7
      (fun c hc => Option.noConfusion hc) (by decide) (by decide)).2.2.2.2⟩

/-! ## Claim C5 counterexample and C8 counterexample -/

/-- C5 counterexample: on the consistent two-node state, `addRelation` with
type parent-child appends the relation without touching any
`parentIds`/`childrenIds`, breaking the invariant; dually, on the
consistent parent-child state, `deleteRelation` removes the relation but
leaves the ownership lists, breaking it again. -/
theorem relationOps_break_consistency_cex :
    consistent twoNodeState ∧
    ¬ consistent ((addRelation twoNodeState ⟨"A", "B", .parentChild, none⟩ "r1" "h" 0).2) ∧
    consistent parentChildState ∧
    ¬ consistent (deleteRelation parentChildState "r1" "h" 0) :=
  ⟨by decide, by decide, by decide, by decide⟩

/-- C8 counterexample: in `compositeMismatchState` the composite `K` is
collapsed (`expanded = false`) while its member `m` is visible
(`hidden = false`).  Toggling twice expands (member stays visible) then
collapses (member hidden), ending with `m.hidden = true ≠ false`: the
visibility state is not restored, although `K.expanded` is. -/
theorem expandCompositeNode_double_toggle_cex :
    (mapGet compositeMismatchState.nodes "m").map (·.hidden) = some false ∧
    (mapGet (expandCompositeNode (expandCompositeNode compositeMismatchState
        "K" "h1" 0) "K" "h2" 0).nodes "m").map (·.hidden) = some true ∧
    (mapGet (expandCompositeNode (expandCompositeNode compositeMismatchState
        "K" "h1" 0) "K" "h2" 0).nodes "K").map (·.expanded) = some false :=
  ⟨rfl, rfl, rfl⟩

/-! ## Context-resolver lemmas (claims C3, C4) -/

/-- `collectContext` equals its instrumented twin: the visited set is the
same, and the emitted messages are the accumulated messages followed by the
blocks of the recorded node order. -/
theorem collectContext_eq_visitOrder (s : AppState) :
    ∀ (fuel : Nat) (nid : String) (visited : List String) (msgs : List CtxMessage),
      collectContext s fuel nid (visited, msgs) =
        ((visitOrder s fuel nid visited).1,
          msgs ++ (visitOrder s fuel nid visited).2.flatMap (nodeBlock s)) := by
  intro fuel
  induction fuel with
  | zero =>
    intro nid visited msgs
    simp [collectContext, visitOrder]
  | succ fuel ih =>
    have hP : ∀ (l : List String) (vis ord : List String) (M : List CtxMessage),
        l.foldl (fun acc pid => collectContext s fuel pid acc)
            (vis, M ++ ord.flatMap (nodeBlock s)) =
          ((l.foldl (fun (acc : List String × List String) pid =>
              ((visitOrder s fuel pid acc.1).1,
                acc.2 ++ (visitOrder s fuel pid acc.1).2)) (vis, ord)).1,
            M ++ (l.foldl (fun (acc : List String × List String) pid =>
              ((visitOrder s fuel pid acc.1).1,
                acc.2 ++ (visitOrder s fuel pid acc.1).2)) (vis, ord)).2.flatMap
              (nodeBlock s)) := by
      intro l
      induction l with
      | nil => intro vis ord M; simp
      | cons a t iht =>
        intro vis ord M
        simp only [List.foldl_cons]
        rw [ih a vis (M ++ ord.flatMap (nodeBlock s))]
        have hassoc :
            M ++ ord.flatMap (nodeBlock s) ++
              (visitOrder s fuel a vis).2.flatMap (nodeBlock s) =
            M ++ (ord ++ (visitOrder s fuel a vis).2).flatMap (nodeBlock s) := by
          rw [List.flatMap_append, List.append_assoc]
        rw [hassoc]
        exact iht (visitOrder s fuel a vis).1 (ord ++ (visitOrder s fuel a vis).2) M
    have hR : ∀ (nid' : String) (l : List RelationData) (vis ord : List String)
        (M : List CtxMessage),
        l.foldl (fun acc r =>
            if r.targetId = nid' ∧ r.type ≠ RelationType.parentChild then
              collectContext s fuel r.sourceId acc
            else acc) (vis, M ++ ord.flatMap (nodeBlock s)) =
          ((l.foldl (fun (acc : List String × List String) r =>
              if r.targetId = nid' ∧ r.type ≠ RelationType.parentChild then
                ((visitOrder s fuel r.sourceId acc.1).1,
                  acc.2 ++ (visitOrder s fuel r.sourceId acc.1).2)
              else acc) (vis, ord)).1,
            M ++ (l.foldl (fun (acc : List String × List String) r =>
              if r.targetId = nid' ∧ r.type ≠ RelationType.parentChild then
                ((visitOrder s fuel r.sourceId acc.1).1,
                  acc.2 ++ (visitOrder s fuel r.sourceId acc.1).2)
              else acc) (vis, ord)).2.flatMap (nodeBlock s)) := by
      intro nid' l
      induction l with
      | nil => intro vis ord M; simp
      | cons a t iht =>
        intro vis ord M
        simp only [List.foldl_cons]
        by_cases hc : a.targetId = nid' ∧ a.type ≠ RelationType.parentChild
        · rw [if_pos hc, if_pos hc,
            ih a.sourceId vis (M ++ ord.flatMap (nodeBlock s))]
          have hassoc :
              M ++ ord.flatMap (nodeBlock s) ++
                (visitOrder s fuel a.sourceId vis).2.flatMap (nodeBlock s) =
              M ++ (ord ++ (visitOrder s fuel a.sourceId vis).2).flatMap (nodeBlock s) := by
            rw [List.flatMap_append, List.append_assoc]
          rw [hassoc]
          exact iht (visitOrder s fuel a.sourceId vis).1
            (ord ++ (visitOrder s fuel a.sourceId vis).2) M
        · rw [if_neg hc, if_neg hc]
          exact iht vis ord M
    have hP0 : ∀ (l : List String) (vis : List String) (M : List CtxMessage),
        l.foldl (fun acc pid => collectContext s fuel pid acc) (vis, M) =
          ((l.foldl (fun (acc : List String × List String) pid =>
              ((visitOrder s fuel pid acc.1).1,
                acc.2 ++ (visitOrder s fuel pid acc.1).2)) (vis, [])).1,
            M ++ (l.foldl (fun (acc : List String × List String) pid =>
              ((visitOrder s fuel pid acc.1).1,
                acc.2 ++ (visitOrder s fuel pid acc.1).2)) (vis, [])).2.flatMap
              (nodeBlock s)) := by
      intro l vis M
      have := hP l vis [] M
      simpa using this
    intro nid visited msgs
    by_cases hv : nid ∈ visited
    · simp [collectContext, visitOrder, hv]
    · rcases hn : mapGet s.nodes nid with _ | node
      · simp [collectContext, visitOrder, hv, hn]
      · simp only [collectContext, visitOrder, if_neg hv, hn]
        rw [hP0 node.parentIds (nid :: visited) msgs]
        rw [hR nid s.relations _ _ msgs]
        rcases hcv : node.conversationId with _ | convId
        · simp [nodeBlock, hn, hcv]
        · rcases hcc : mapGet s.conversations convId with _ | conv
          · simp [nodeBlock, hn, hcv, hcc]
          · by_cases hlen : conv.messages.length > 0
            · simp [nodeBlock, hn, hcv, hcc, hlen, List.flatMap_append]
            · simp [nodeBlock, hn, hcv, hcc, hlen]

/-- DFS invariant of the instrumented traversal: the visited set only
grows, the recorded order has no duplicates, and every recorded node is
newly visited. -/
theorem visitOrder_invariant (s : AppState) :
    ∀ (fuel : Nat) (nid : String) (visited : List String),
      visited ⊆ (visitOrder s fuel nid visited).1 ∧
      (visitOrder s fuel nid visited).2.Nodup ∧
      (∀ x ∈ (visitOrder s fuel nid visited).2,
        x ∈ (visitOrder s fuel nid visited).1 ∧ x ∉ visited) := by
  intro fuel
  induction fuel with
  | zero =>
    intro nid visited
    simp [visitOrder, List.Subset.refl]
  | succ fuel ih =>
    have hP : ∀ (l : List String) (vis ord : List String),
        ord.Nodup → (∀ x ∈ ord, x ∈ vis) →
        vis ⊆ (l.foldl (fun (acc : List String × List String) pid =>
            ((visitOrder s fuel pid acc.1).1,
              acc.2 ++ (visitOrder s fuel pid acc.1).2)) (vis, ord)).1 ∧
        (l.foldl (fun (acc : List String × List String) pid =>
            ((visitOrder s fuel pid acc.1).1,
              acc.2 ++ (visitOrder s fuel pid acc.1).2)) (vis, ord)).2.Nodup ∧
        (∀ x ∈ (l.foldl (fun (acc : List String × List String) pid =>
            ((visitOrder s fuel pid acc.1).1,
              acc.2 ++ (visitOrder s fuel pid acc.1).2)) (vis, ord)).2,
          x ∈ (l.foldl (fun (acc : List String × List String) pid =>
            ((visitOrder s fuel pid acc.1).1,
              acc.2 ++ (visitOrder s fuel pid acc.1).2)) (vis, ord)).1) ∧
        (∀ x ∈ (l.foldl (fun (acc : List String × List String) pid =>
            ((visitOrder s fuel pid acc.1).1,
              acc.2 ++ (visitOrder s fuel pid acc.1).2)) (vis, ord)).2,
          x ∉ ord → x ∉ vis) := by
      intro l
      induction l with
      | nil =>
        intro vis ord hnd hov
        exact ⟨List.Subset.refl vis, hnd, fun x hx => hov x hx,
          fun x hx hxo => absurd hx hxo⟩
      | cons a t iht =>
        intro vis ord hnd hov
        obtain ⟨hsub, hqnd, hqmem⟩ := ih a vis
        have hdisj : ∀ x ∈ ord, x ∉ (visitOrder s fuel a vis).2 := by
          intro x hx hq
          exact (hqmem x hq).2 (hov x hx)
        have hnd' : (ord ++ (visitOrder s fuel a vis).2).Nodup :=
          List.Nodup.append hnd hqnd (by intro x hx hq; exact hdisj x hx hq)
        have hov' : ∀ x ∈ ord ++ (visitOrder s fuel a vis).2,
            x ∈ (visitOrder s fuel a vis).1 := by
          intro x hx
          rcases List.mem_append.1 hx with h | h
          · exact hsub (hov x h)
          · exact (hqmem x h).1
        obtain ⟨hsub2, hnd2, hmem2, hnew2⟩ :=
          iht (visitOrder s fuel a vis).1 (ord ++ (visitOrder s fuel a vis).2) hnd' hov'
        simp only [List.foldl_cons]
        refine ⟨hsub.trans hsub2, hnd2, hmem2, ?_⟩
        intro x hx hxo
        by_cases hmid : x ∈ ord ++ (visitOrder s fuel a vis).2
        · rcases List.mem_append.1 hmid with h | h
          · exact absurd h hxo
          · exact (hqmem x h).2
        · intro hxv
          exact hnew2 x hx hmid (hsub hxv)
    have hR : ∀ (nid' : String) (l : List RelationData) (vis ord : List String),
        ord.Nodup → (∀ x ∈ ord, x ∈ vis) →
        vis ⊆ (l.foldl (fun (acc : List String × List String) r =>
            if r.targetId = nid' ∧ r.type ≠ RelationType.parentChild then
              ((visitOrder s fuel r.sourceId acc.1).1,
                acc.2 ++ (visitOrder s fuel r.sourceId acc.1).2)
            else acc) (vis, ord)).1 ∧
        (l.foldl (fun (acc : List String × List String) r =>
            if r.targetId = nid' ∧ r.type ≠ RelationType.parentChild then
              ((visitOrder s fuel r.sourceId acc.1).1,
                acc.2 ++ (visitOrder s fuel r.sourceId acc.1).2)
            else acc) (vis, ord)).2.Nodup ∧
        (∀ x ∈ (l.foldl (fun (acc : List String × List String) r =>
            if r.targetId = nid' ∧ r.type ≠ RelationType.parentChild then
              ((visitOrder s fuel r.sourceId acc.1).1,
                acc.2 ++ (visitOrder s fuel r.sourceId acc.1).2)
            else acc) (vis, ord)).2,
          x ∈ (l.foldl (fun (acc : List String × List String) r =>
            if r.targetId = nid' ∧ r.type ≠ RelationType.parentChild then
              ((visitOrder s fuel r.sourceId acc.1).1,
                acc.2 ++ (visitOrder s fuel r.sourceId acc.1).2)
            else acc) (vis, ord)).1) ∧
        (∀ x ∈ (l.foldl (fun (acc : List String × List String) r =>
            if r.targetId = nid' ∧ r.type ≠ RelationType.parentChild then
              ((visitOrder s fuel r.sourceId acc.1).1,
                acc.2 ++ (visitOrder s fuel r.sourceId acc.1).2)
            else acc) (vis, ord)).2,
          x ∉ ord → x ∉ vis) := by
      intro nid' l
      induction l with
      | nil =>
        intro vis ord hnd hov
        exact ⟨List.Subset.refl vis, hnd, fun x hx => hov x hx,
          fun x hx hxo => absurd hx hxo⟩
      | cons a t iht =>
        intro vis ord hnd hov
        simp only [List.foldl_cons]
        by_cases hc : a.targetId = nid' ∧ a.type ≠ RelationType.parentChild
        · rw [if_pos hc]
          obtain ⟨hsub, hqnd, hqmem⟩ := ih a.sourceId vis
          have hdisj : ∀ x ∈ ord, x ∉ (visitOrder s fuel a.sourceId vis).2 := by
            intro x hx hq
            exact (hqmem x hq).2 (hov x hx)
          have hnd' : (ord ++ (visitOrder s fuel a.sourceId vis).2).Nodup :=
            List.Nodup.append hnd hqnd (by intro x hx hq; exact hdisj x hx hq)
          have hov' : ∀ x ∈ ord ++ (visitOrder s fuel a.sourceId vis).2,
              x ∈ (visitOrder s fuel a.sourceId vis).1 := by
            intro x hx
            rcases List.mem_append.1 hx with h | h
            · exact hsub (hov x h)
            · exact (hqmem x h).1
          obtain ⟨hsub2, hnd2, hmem2, hnew2⟩ :=
            iht (visitOrder s fuel a.sourceId vis).1
              (ord ++ (visitOrder s fuel a.sourceId vis).2) hnd' hov'
          refine ⟨hsub.trans hsub2, hnd2, hmem2, ?_⟩
          intro x hx hxo
          by_cases hmid : x ∈ ord ++ (visitOrder s fuel a.sourceId vis).2
          · rcases List.mem_append.1 hmid with h | h
            · exact absurd h hxo
            · exact (hqmem x h).2
          · intro hxv
            exact hnew2 x hx hmid (hsub hxv)
        · rw [if_neg hc]
          exact iht vis ord hnd hov
    intro nid visited
    by_cases hv : nid ∈ visited
    · simp [visitOrder, hv, List.Subset.refl]
    · rcases hn : mapGet s.nodes nid with _ | node
      · simp only [visitOrder, if_neg hv, hn]
        exact ⟨List.subset_cons_self nid visited, List.nodup_nil, by simp⟩
      · simp only [visitOrder, if_neg hv, hn]
        obtain ⟨hs1, hnd1, hm1, hn1⟩ := hP node.parentIds (nid :: visited) []
          List.nodup_nil (by simp)
        obtain ⟨hs2, hnd2, hm2, hn2⟩ := hR nid s.relations _ _ hnd1 hm1
        have hsub_all : visited ⊆
            (s.relations.foldl _ (node.parentIds.foldl _ (nid :: visited, []))).1 :=
          (List.subset_cons_self nid visited).trans (hs1.trans hs2)
        have hnotc : ∀ x ∈ (s.relations.foldl (fun (acc : List String × List String) r =>
            if r.targetId = nid ∧ r.type ≠ RelationType.parentChild then
              ((visitOrder s fuel r.sourceId acc.1).1,
                acc.2 ++ (visitOrder s fuel r.sourceId acc.1).2)
            else acc) (node.parentIds.foldl (fun (acc : List String × List String) pid =>
              ((visitOrder s fuel pid acc.1).1,
                acc.2 ++ (visitOrder s fuel pid acc.1).2)) (nid :: visited, []))).2,
            x ∉ (nid :: visited) := by
          intro x hx
          by_cases hmid : x ∈ (node.parentIds.foldl (fun (acc : List String × List String) pid =>
              ((visitOrder s fuel pid acc.1).1,
                acc.2 ++ (visitOrder s fuel pid acc.1).2)) (nid :: visited, [])).2
          · exact hn1 x hmid (by simp)
          · intro hxv
            exact hn2 x hx hmid (hs1 hxv)
        have hnidin : nid ∈ (s.relations.foldl (fun (acc : List String × List String) r =>
            if r.targetId = nid ∧ r.type ≠ RelationType.parentChild then
              ((visitOrder s fuel r.sourceId acc.1).1,
                acc.2 ++ (visitOrder s fuel r.sourceId acc.1).2)
            else acc) (node.parentIds.foldl (fun (acc : List String × List String) pid =>
              ((visitOrder s fuel pid acc.1).1,
                acc.2 ++ (visitOrder s fuel pid acc.1).2)) (nid :: visited, []))).1 :=
          hs2 (hs1 (List.mem_cons_self nid visited))
        by_cases hb : nodeBlock s nid ≠ []
        · simp only [if_pos hb]
          refine ⟨hsub_all, ?_, ?_⟩
          · refine List.Nodup.append hnd2 (List.nodup_singleton nid) ?_
            intro x hx hx1
            have hxeq : x = nid := List.mem_singleton.1 hx1
            subst hxeq
            exact hnotc x hx (List.mem_cons_self x visited)
          · intro x hx
            rcases List.mem_append.1 hx with h | h
            · exact ⟨hm2 x h, fun hxv => hnotc x h (List.mem_cons_of_mem nid hxv)⟩
            · have hxeq : x = nid := List.mem_singleton.1 h
              subst hxeq
              exact ⟨hnidin, hv⟩
        · simp only [if_neg hb]
          refine ⟨hsub_all, hnd2, ?_⟩
          intro x hx
          exact ⟨hm2 x hx, fun hxv => hnotc x hx (List.mem_cons_of_mem nid hxv)⟩

/-- C4: on every graph state — relation cycles included — the context
resolver terminates (it is a total function of the depth-bounded,
visited-set-guarded recursion) and emits each node's marker-plus-messages
block at most once: the output is exactly the concatenation of the blocks
of `contextOrder`, which has no duplicate node.  On the concrete
two-node `supports` cycle, `getContext(A)` yields each node's block exactly
once. -/
theorem getConversationContext_no_duplicates :
    (∀ (s : AppState) (nid : String),
      getConversationContext s nid =
        (contextOrder s nid).flatMap (nodeBlock s) ∧
      (contextOrder s nid).Nodup) ∧
    getConversationContext cycleState "A" =
      [⟨.system, "[节点: B]"⟩, ⟨.user, "b1"⟩,
       ⟨.system, "[节点: A]"⟩, ⟨.user, "a1"⟩] := by
  refine ⟨fun s nid => ⟨?_, ?_⟩, by decide⟩
  · show (collectContext s 21 nid ([], [])).2 = _
    rw [collectContext_eq_visitOrder s 21 nid [] []]
    simp [contextOrder]
  · exact (visitOrder_invariant s 21 nid []).2.1

/-- When every relation in the store is parent-child, the relation pass of
the collector never fires, so the state's relation list is irrelevant. -/
theorem collectContext_all_pc (s : AppState)
    (hpc : ∀ r ∈ s.relations, r.type = RelationType.parentChild) :
    ∀ (fuel : Nat) (nid : String) (acc : List String × List CtxMessage),
      collectContext s fuel nid acc =
        collectContext { s with relations := [] } fuel nid acc := by
  intro fuel
  induction fuel with
  | zero => intro nid acc; rfl
  | succ fuel ih =>
    have hskip : ∀ (l : List RelationData),
        (∀ r ∈ l, r.type = RelationType.parentChild) →
        ∀ (nid : String) (acc : List String × List CtxMessage),
        l.foldl (fun acc r =>
            if r.targetId = nid ∧ r.type ≠ RelationType.parentChild then
              collectContext s fuel r.sourceId acc
            else acc) acc = acc := by
      intro l
      induction l with
      | nil => intro _ _ _; rfl
      | cons a t iht =>
        intro hl nid acc
        have ha : a.type = RelationType.parentChild := hl a (List.mem_cons_self a t)
        have : ¬(a.targetId = nid ∧ a.type ≠ RelationType.parentChild) := by
          rintro ⟨-, hne⟩; exact hne ha
        simp only [List.foldl_cons, if_neg this]
        exact iht (fun r hr => hl r (List.mem_cons_of_mem a hr)) nid acc
    intro nid acc
    obtain ⟨visited, msgs⟩ := acc
    by_cases hv : nid ∈ visited
    · simp [collectContext, hv]
    · rcases hn : mapGet s.nodes nid with _ | node
      · simp [collectContext, hv, hn]
      · simp only [collectContext, if_neg hv, hn]
        have hfold : ∀ (l : List String) (acc : List String × List CtxMessage),
            l.foldl (fun acc pid => collectContext s fuel pid acc) acc =
            l.foldl (fun acc pid =>
              collectContext { s with relations := [] } fuel pid acc) acc := by
          intro l
          induction l with
          | nil => intro _; rfl
          | cons a t iht =>
            intro acc
            simp only [List.foldl_cons, ih, iht]
        rw [hskip s.relations hpc nid]
        rw [hfold node.parentIds (nid :: visited, msgs)]
        rfl

/-- C3: on the parent-child chain A → B → C where every node holds a
non-empty conversation, and for ANY relation list consisting only of
parent-child relations (any insertion order), `getConversationContext(C)`
returns A's marker and messages, then B's, then C's. -/
theorem getConversationContext_chain_order (rs : List RelationData)
    (hpc : ∀ r ∈ rs, r.type = RelationType.parentChild) :
    getConversationContext (chainState rs) "C" =
      [⟨.system, "[节点: A]"⟩, ⟨.user, "a1"⟩,
       ⟨.system, "[节点: B]"⟩, ⟨.user, "b1"⟩,
       ⟨.system, "[节点: C]"⟩, ⟨.user, "c1"⟩] := by
  show (collectContext (chainState rs) 21 "C" ([], [])).2 = _
  rw [collectContext_all_pc (chainState rs) hpc 21 "C" ([], [])]
  have hcs : ({ chainState rs with relations := [] } : AppState) = chainState [] := rfl
  rw [hcs]
  decide

/-- Witness for C3: the chain's two parent-child relations, in storage
order A→B then B→C. -/
theorem getConversationContext_chain_order_witness :
    (∀ r ∈ [(⟨"r1", "A", "B", .parentChild, none, 0⟩ : RelationData),
            ⟨"r2", "B", "C", .parentChild, none, 0⟩],
      r.type = RelationType.parentChild) ∧
    getConversationContext (chainState
        [⟨"r1", "A", "B", .parentChild, none, 0⟩,
         ⟨"r2", "B", "C", .parentChild, none, 0⟩]) "C" =
      [⟨.system, "[节点: A]"⟩, ⟨.user, "a1"⟩,
       ⟨.system, "[节点: B]"⟩, ⟨.user, "b1"⟩,
       ⟨.system, "[节点: C]"⟩, ⟨.user, "c1"⟩] :=
  ⟨by decide, getConversationContext_chain_order _ (by decide)⟩

/-! ## Map and update-loop lemmas (claims C5, C7, C8) -/

theorem mapGet_mem (m : List (String × α)) (k : String) (v : α)
    (h : mapGet m k = some v) : (k, v) ∈ m := by
  induction m with
  | nil => exact Option.noConfusion h
  | cons p rest ih =>
    obtain ⟨k₀, v₀⟩ := p
    by_cases h0 : k₀ = k
    · subst h0
      have hv : v₀ = v := by simpa [mapGet] using h
      subst hv
      exact List.mem_cons_self _ _
    · simp only [mapGet, if_neg h0] at h
      exact List.mem_cons_of_mem _ (ih h)

theorem mem_mapGet (m : List (String × α)) (hnd : keysNodup m) (k : String)
    (v : α) (h : (k, v) ∈ m) : mapGet m k = some v := by
  induction m with
  | nil => simp at h
  | cons p rest ih =>
    obtain ⟨k₀, v₀⟩ := p
    rcases List.mem_cons.1 h with h1 | h1
    · injection h1 with h2 h3
      subst h2; subst h3
      simp [mapGet]
    · have hk : k ≠ k₀ := by
        rintro rfl
        have hm : k ∈ mapKeys rest := List.mem_map_of_mem Prod.fst h1
        exact (List.nodup_cons.1 hnd).1 hm
      have hk' : ¬k₀ = k := fun hh => hk hh.symm
      simp only [mapGet, if_neg hk']
      exact ih (List.nodup_cons.1 hnd).2 h1

theorem mapKeys_mapSet_of_not_mem (m : List (String × α)) (k : String) (v : α)
    (h : k ∉ mapKeys m) : mapKeys (mapSet m k v) = mapKeys m ++ [k] := by
  induction m with
  | nil => rfl
  | cons p rest ih =>
    obtain ⟨k₀, v₀⟩ := p
    simp only [mapKeys_cons, List.mem_cons] at h
    push_neg at h
    have hk' : ¬k₀ = k := fun hh => h.1 hh.symm
    simp [mapSet, hk', ih h.2]

theorem keysNodup_mapSet (m : List (String × α)) (k : String) (v : α)
    (h : keysNodup m) : keysNodup (mapSet m k v) := by
  by_cases hk : k ∈ mapKeys m
  · rw [keysNodup, mapKeys_mapSet_of_mem m k v hk]
    exact h
  · rw [keysNodup, mapKeys_mapSet_of_not_mem m k v hk]
    simpa [List.nodup_append] using ⟨h, hk⟩

theorem updateIdx_mapGet_not_mem (f : Nat → String → NodeData → NodeData) :
    ∀ (n : Nat) (ids : List String) (m : List (String × NodeData)) (k : String),
    k ∉ ids → mapGet (updateIdx f n ids m) k = mapGet m k := by
  intro n ids
  induction ids generalizing n with
  | nil => intro m k _; rfl
  | cons a t ih =>
    intro m k hk
    have hka : k ≠ a := fun hh => hk (hh ▸ List.mem_cons_self a t)
    have hkt : k ∉ t := fun hh => hk (List.mem_cons_of_mem a hh)
    show mapGet (updateIdx f (n + 1) t _) k = mapGet m k
    rw [ih (n + 1) _ k hkt]
    rcases hl : mapGet m a with _ | v
    · simp [hl]
    · simp only [hl]
      rw [mapGet_mapSet, if_neg hka]

theorem updateIdx_keys (f : Nat → String → NodeData → NodeData) :
    ∀ (n : Nat) (ids : List String) (m : List (String × NodeData)),
    mapKeys (updateIdx f n ids m) = mapKeys m := by
  intro n ids
  induction ids generalizing n with
  | nil => intro m; rfl
  | cons a t ih =>
    intro m
    show mapKeys (updateIdx f (n + 1) t _) = mapKeys m
    rw [ih]
    rcases hl : mapGet m a with _ | v
    · simp [hl]
    · simp only [hl]
      exact mapKeys_mapSet_of_mem m a _ (mem_mapKeys_of_get m a v hl)

theorem updateIdx_mapGet_at (f : Nat → String → NodeData → NodeData) :
    ∀ (ids : List String), ids.Nodup →
    ∀ (n : Nat) (m : List (String × NodeData)) (i : Nat) (hi : i < ids.length),
    mapGet (updateIdx f n ids m) ids[i] =
      (mapGet m ids[i]).map (f (n + i) ids[i]) := by
  intro ids
  induction ids with
  | nil => intro _ n m i hi; exact absurd hi (by simp)
  | cons a t ih =>
    intro hnd n m i hi
    have hat : a ∉ t := (List.nodup_cons.1 hnd).1
    cases i with
    | zero =>
      simp only [List.getElem_cons_zero]
      show mapGet (updateIdx f (n + 1) t _) a = (mapGet m a).map (f (n + 0) a)
      rw [updateIdx_mapGet_not_mem f (n + 1) t _ a hat]
      rcases hl : mapGet m a with _ | v
      · simp [hl]
      · simp only [hl]
        rw [mapGet_mapSet, if_pos rfl]
        simp
    | succ j =>
      have hj : j < t.length := by simpa using hi
      simp only [List.getElem_cons_succ]
      have hne : t[j] ≠ a := by
        intro hh
        exact hat (hh ▸ List.getElem_mem hj)
      show mapGet (updateIdx f (n + 1) t _) t[j] = _
      rw [ih (List.nodup_cons.1 hnd).2 (n + 1) _ j hj]
      have hbase : mapGet (match mapGet m a with
          | some nd => mapSet m a (f n a nd)
          | none => m) t[j] = mapGet m t[j] := by
        rcases hl : mapGet m a with _ | v
        · rfl
        · simp only [hl]
          rw [mapGet_mapSet, if_neg hne]
      rw [hbase]
      have harith : n + 1 + j = n + (j + 1) := by omega
      rw [harith]

/-- An update loop whose function keeps `parentIds`/`childrenIds` (e.g. the
repositioning pass of `createChildNode`) preserves every looked-up node's
links. -/
theorem updateIdx_mapGet_links (f : Nat → String → NodeData → NodeData)
    (hf : ∀ i k nd, nodeLinks (f i k nd) = nodeLinks nd) :
    ∀ (n : Nat) (ids : List String) (m : List (String × NodeData)) (k : String),
    (mapGet (updateIdx f n ids m) k).map nodeLinks =
      (mapGet m k).map nodeLinks := by
  intro n ids
  induction ids generalizing n with
  | nil => intro m k; rfl
  | cons a t ih =>
    intro m k
    show (mapGet (updateIdx f (n + 1) t _) k).map nodeLinks = _
    rw [ih]
    rcases hl : mapGet m a with _ | v
    · simp [hl]
    · simp only [hl]
      rw [mapGet_mapSet]
      by_cases hka : k = a
      · subst hka
        rw [if_pos rfl, hl]
        simp [hf]
      · rw [if_neg hka]

theorem consistent_iff_get (s : AppState) (hnd : keysNodup s.nodes) :
    consistent s ↔ consistentGet s := by
  constructor
  · rintro ⟨h1, h2⟩
    exact ⟨h1, fun k nd hk => h2 (k, nd) (mapGet_mem s.nodes k nd hk)⟩
  · rintro ⟨h1, h2⟩
    refine ⟨h1, fun kn hkn => ?_⟩
    obtain ⟨k, nd⟩ := kn
    exact h2 k nd (mem_mapGet s.nodes hnd k nd hkn)

/-- Transfer of `linkBacked` along equal links and a larger relation list. -/
theorem linkBacked_transfer (s s' : AppState)
    (hsub : ∀ r ∈ s.relations, r ∈ s'.relations) (k : String)
    (nd nd' : NodeData) (hl : nodeLinks nd' = nodeLinks nd)
    (hb : linkBacked s k nd) : linkBacked s' k nd' := by
  obtain ⟨hp, hc⟩ := hb
  have hpar : nd'.parentIds = nd.parentIds := congrArg Prod.fst hl
  have hch : nd'.childrenIds = nd.childrenIds := congrArg Prod.snd hl
  constructor
  · intro pid hpid
    obtain ⟨r, hr, hrt⟩ := hp pid (hpar ▸ hpid)
    exact ⟨r, hsub r hr, hrt⟩
  · intro cid hcid
    obtain ⟨r, hr, hrt⟩ := hc cid (hch ▸ hcid)
    exact ⟨r, hsub r hr, hrt⟩

/-- `consistent` only reads the node and relation collections. -/
theorem consistent_ext (s s' : AppState) (hn : s'.nodes = s.nodes)
    (hr : s'.relations = s.relations) : consistent s → consistent s' := by
  unfold consistent pcListed linkBacked
  rw [hn, hr]
  exact id

theorem consistent_createRootNode (s : AppState) (hcons : consistent s)
    (hnodup : keysNodup s.nodes) (id hid : String) (now : Nat) (title : String)
    (hfresh : mapGet s.nodes id = none) :
    consistent (createRootNode s id hid now title).2 := by
  obtain ⟨hrel, hnode⟩ := (consistent_iff_get s hnodup).1 hcons
  have hcore : consistent { s with
      nodes := mapSet s.nodes id (rootNodeVal s id now title)
      selectedNodeId := some id } := by
    have hnd2 : keysNodup (mapSet s.nodes id (rootNodeVal s id now title)) :=
      keysNodup_mapSet _ _ _ hnodup
    rw [consistent_iff_get _ hnd2]
    constructor
    · intro r hr hpc
      obtain ⟨⟨p, hp, hmem⟩, ⟨c, hc, hmem2⟩⟩ := hrel r hr hpc
      have hs : ¬r.sourceId = id := fun hh => by
        rw [hh, hfresh] at hp; exact Option.noConfusion hp
      have ht : ¬r.targetId = id := fun hh => by
        rw [hh, hfresh] at hc; exact Option.noConfusion hc
      refine ⟨⟨p, ?_, hmem⟩, ⟨c, ?_, hmem2⟩⟩
      · show mapGet (mapSet s.nodes id (rootNodeVal s id now title)) r.sourceId = some p
        rw [mapGet_mapSet, if_neg hs]; exact hp
      · show mapGet (mapSet s.nodes id (rootNodeVal s id now title)) r.targetId = some c
        rw [mapGet_mapSet, if_neg ht]; exact hc
    · intro k nd hk
      have hk' : mapGet (mapSet s.nodes id (rootNodeVal s id now title)) k = some nd := hk
      rw [mapGet_mapSet] at hk'
      by_cases hki : k = id
      · rw [if_pos hki] at hk'
        injection hk' with hk'
        subst hk'
        constructor
        · intro x hx; simp [rootNodeVal] at hx
        · intro x hx; simp [rootNodeVal] at hx
      · rw [if_neg hki] at hk'
        exact hnode k nd hk'
  exact consistent_ext _ _ rfl rfl hcore

theorem consistent_createChildNode (s : AppState) (hcons : consistent s)
    (hnodup : keysNodup s.nodes) (parentId id relationId hid : String)
    (now : Nat) (title : String) (hfresh : mapGet s.nodes id = none) :
    consistent (createChildNode s parentId id relationId hid now title).2 := by
  obtain ⟨hrel, hnode⟩ := (consistent_iff_get s hnodup).1 hcons
  rcases hparent : mapGet s.nodes parentId with _ | parent
  · have hid2 : (createChildNode s parentId id relationId hid now title).2 = s := by
      simp [createChildNode, hparent]
    rw [hid2]; exact hcons
  · have hne : ¬parentId = id := fun hh => by
      rw [hh, hfresh] at hparent; exact Option.noConfusion hparent
    have hup : mapGet (mapSet s.nodes id (childNodeVal parentId id now title
        (calculateNodePosition (some parent) parent.childrenIds.length
          (parent.childrenIds.length + 1)))) parentId = some parent := by
      rw [mapGet_mapSet, if_neg hne]; exact hparent
    have hfin : (createChildNode s parentId id relationId hid now title).2 =
        pushHistory { s with
          nodes := updateIdx (fun idx _ child =>
              { child with position :=
                  calculateNodePosition (some parent) idx parent.childrenIds.length })
            0 parent.childrenIds
            (mapSet (mapSet s.nodes id (childNodeVal parentId id now title
              (calculateNodePosition (some parent) parent.childrenIds.length
                (parent.childrenIds.length + 1)))) parentId
              { parent with childrenIds := parent.childrenIds ++ [id] })
          relations := s.relations ++
            [⟨relationId, parentId, id, .parentChild, none, now⟩]
          selectedNodeId := some id }
          .create_node ("创建子节点: " ++ title) none none hid now := by
      simp only [createChildNode, hparent, hup]
    rw [hfin]
    refine consistent_ext _ _ rfl rfl ?_
    -- abbreviations for the node maps
    generalize hnnEq : childNodeVal parentId id now title
      (calculateNodePosition (some parent) parent.childrenIds.length
        (parent.childrenIds.length + 1)) = nn at hup ⊢
    set parent2 : NodeData :=
      { parent with childrenIds := parent.childrenIds ++ [id] } with hparent2
    set nodes2 := mapSet (mapSet s.nodes id nn) parentId parent2 with hnodes2
    set rfn : Nat → String → NodeData → NodeData := fun idx _ child =>
      { child with position :=
          calculateNodePosition (some parent) idx parent.childrenIds.length }
      with hrfn
    set newRel : RelationData :=
      ⟨relationId, parentId, id, .parentChild, none, now⟩ with hnewRel
    have hn2 : ∀ k, mapGet nodes2 k =
        if k = parentId then some parent2
        else if k = id then some nn else mapGet s.nodes k := by
      intro k
      rw [hnodes2, mapGet_mapSet]
      by_cases hkp : k = parentId
      · rw [if_pos hkp, if_pos hkp]
      · rw [if_neg hkp, if_neg hkp, mapGet_mapSet]
    have hlinks : ∀ k,
        (mapGet (updateIdx rfn 0 parent.childrenIds nodes2) k).map nodeLinks =
        (mapGet nodes2 k).map nodeLinks :=
      updateIdx_mapGet_links rfn (fun i k nd => rfl) 0 parent.childrenIds nodes2
    have hex : ∀ k nd2, mapGet nodes2 k = some nd2 →
        ∃ nd3, mapGet (updateIdx rfn 0 parent.childrenIds nodes2) k = some nd3 ∧
          nodeLinks nd3 = nodeLinks nd2 := by
      intro k nd2 h2
      have h := hlinks k
      rw [h2] at h
      exact Option.map_eq_some'.1 h
    have hex' : ∀ k nd3,
        mapGet (updateIdx rfn 0 parent.childrenIds nodes2) k = some nd3 →
        ∃ nd2, mapGet nodes2 k = some nd2 ∧ nodeLinks nd2 = nodeLinks nd3 := by
      intro k nd3 h3
      have h := (hlinks k).symm
      rw [h3] at h
      exact Option.map_eq_some'.1 h
    have hnd3 : keysNodup (updateIdx rfn 0 parent.childrenIds nodes2) := by
      rw [keysNodup, updateIdx_keys]
      exact keysNodup_mapSet _ _ _ (keysNodup_mapSet _ _ _ hnodup)
    rw [consistent_iff_get _ hnd3]
    constructor
    · -- every parent-child relation is listed
      intro r hr hpc
      rcases List.mem_append.1 hr with hold | hnew
      · obtain ⟨⟨p, hp, hmem⟩, ⟨c, hc, hmem2⟩⟩ := hrel r hold hpc
        have hsrc : ∃ nd3,
            mapGet (updateIdx rfn 0 parent.childrenIds nodes2) r.sourceId = some nd3 ∧
            r.targetId ∈ nd3.childrenIds := by
          by_cases hsp : r.sourceId = parentId
          · have hpe : p = parent := by
              rw [hsp] at hp; rw [hp] at hparent; injection hparent
            obtain ⟨nd3, h3, hl⟩ := hex r.sourceId parent2 (by
              rw [hn2, if_pos hsp])
            refine ⟨nd3, h3, ?_⟩
            have : nd3.childrenIds = parent.childrenIds ++ [id] :=
              congrArg Prod.snd hl
            rw [this]
            exact List.mem_append_left _ (hpe ▸ hmem)
          · have hsi : ¬r.sourceId = id := fun hh => by
              rw [hh, hfresh] at hp; exact Option.noConfusion hp
            obtain ⟨nd3, h3, hl⟩ := hex r.sourceId p (by
              rw [hn2, if_neg hsp, if_neg hsi]; exact hp)
            refine ⟨nd3, h3, ?_⟩
            have : nd3.childrenIds = p.childrenIds := congrArg Prod.snd hl
            rw [this]; exact hmem
        have htgt : ∃ nd3,
            mapGet (updateIdx rfn 0 parent.childrenIds nodes2) r.targetId = some nd3 ∧
            r.sourceId ∈ nd3.parentIds := by
          by_cases htp : r.targetId = parentId
          · have hce : c = parent := by
              rw [htp] at hc; rw [hc] at hparent; injection hparent
            obtain ⟨nd3, h3, hl⟩ := hex r.targetId parent2 (by
              rw [hn2, if_pos htp])
            refine ⟨nd3, h3, ?_⟩
            have : nd3.parentIds = parent.parentIds := congrArg Prod.fst hl
            rw [this]
            exact hce ▸ hmem2
          · have hti : ¬r.targetId = id := fun hh => by
              rw [hh, hfresh] at hc; exact Option.noConfusion hc
            obtain ⟨nd3, h3, hl⟩ := hex r.targetId c (by
              rw [hn2, if_neg htp, if_neg hti]; exact hc)
            refine ⟨nd3, h3, ?_⟩
            have : nd3.parentIds = c.parentIds := congrArg Prod.fst hl
            rw [this]; exact hmem2
        exact ⟨hsrc, htgt⟩
      · have hre : r = newRel := List.mem_singleton.1 hnew
        subst hre
        constructor
        · obtain ⟨nd3, h3, hl⟩ := hex parentId parent2 (by
            rw [hn2, if_pos rfl])
          refine ⟨nd3, h3, ?_⟩
          have : nd3.childrenIds = parent.childrenIds ++ [id] :=
            congrArg Prod.snd hl
          rw [this]
          exact List.mem_append_right _ (List.mem_singleton_self id)
        · obtain ⟨nd3, h3, hl⟩ := hex id nn (by
            rw [hn2, if_neg (fun hh => hne hh.symm), if_pos rfl])
          refine ⟨nd3, h3, ?_⟩
          have : nd3.parentIds = nn.parentIds := congrArg Prod.fst hl
          rw [this, ← hnnEq]
          show parentId ∈ [parentId]
          exact List.mem_singleton_self parentId
    · -- every ownership link is backed by a relation
      intro k nd3 h3
      obtain ⟨nd2, h2, hl⟩ := hex' k nd3 h3
      rw [hn2] at h2
      by_cases hkp : k = parentId
      · rw [if_pos hkp] at h2
        injection h2 with h2
        subst h2
        obtain ⟨hbp, hbc⟩ := hnode parentId parent hparent
        constructor
        · intro pid hpid
          have hpar : nd3.parentIds = parent.parentIds :=
            (congrArg Prod.fst hl).symm
          obtain ⟨r, hrm, hrt⟩ := hbp pid (hpar ▸ hpid)
          exact ⟨r, List.mem_append_left _ hrm, hrt.1, hrt.2.1, hkp ▸ hrt.2.2⟩
        · intro cid hcid
          have hch : nd3.childrenIds = parent.childrenIds ++ [id] :=
            (congrArg Prod.snd hl).symm
          rw [hch] at hcid
          rcases List.mem_append.1 hcid with hc1 | hc1
          · obtain ⟨r, hrm, hrt⟩ := hbc cid hc1
            exact ⟨r, List.mem_append_left _ hrm, hrt.1, hkp ▸ hrt.2.1, hrt.2.2⟩
          · have : cid = id := List.mem_singleton.1 hc1
            subst this
            refine ⟨newRel, List.mem_append_right _ (List.mem_singleton_self _), ?_, ?_, ?_⟩
            · rfl
            · rw [hkp]
            · rfl
      · rw [if_neg hkp] at h2
        by_cases hki : k = id
        · rw [if_pos hki] at h2
          injection h2 with h2
          subst h2
          constructor
          · intro pid hpid
            have hl' : nodeLinks (childNodeVal parentId id now title
                (calculateNodePosition (some parent) parent.childrenIds.length
                  (parent.childrenIds.length + 1))) = nodeLinks nd3 := by
              rw [hnnEq]; exact hl
            have hpar : nd3.parentIds = [parentId] :=
              (congrArg Prod.fst hl').symm
            have : pid = parentId := List.mem_singleton.1 (hpar ▸ hpid)
            subst this
            refine ⟨newRel, List.mem_append_right _ (List.mem_singleton_self _), rfl, rfl, ?_⟩
            rw [hki]
          · intro cid hcid
            have hl' : nodeLinks (childNodeVal parentId id now title
                (calculateNodePosition (some parent) parent.childrenIds.length
                  (parent.childrenIds.length + 1))) = nodeLinks nd3 := by
              rw [hnnEq]; exact hl
            have hch : nd3.childrenIds = [] :=
              (congrArg Prod.snd hl').symm
            rw [hch] at hcid
            simp at hcid
        · rw [if_neg hki] at h2
          exact linkBacked_transfer s _ (fun r hr => List.mem_append_left _ hr)
            k nd2 nd3 hl.symm (hnode k nd2 h2)

theorem consistent_addRelation_nonpc (s : AppState) (hcons : consistent s)
    (rel : RelationInput) (id hid : String) (now : Nat)
    (hty : rel.type ≠ RelationType.parentChild) :
    consistent (addRelation s rel id hid now).2 := by
  obtain ⟨h1, h2⟩ := hcons
  refine consistent_ext { s with relations := s.relations ++
    [⟨id, rel.sourceId, rel.targetId, rel.type, rel.description, now⟩] } _ rfl rfl ?_
  constructor
  · intro r hr hpc
    rcases List.mem_append.1 hr with hold | hnew
    · obtain ⟨⟨p, hp, hm⟩, ⟨c, hc, hm2⟩⟩ := h1 r hold hpc
      exact ⟨⟨p, hp, hm⟩, ⟨c, hc, hm2⟩⟩
    · have hre := List.mem_singleton.1 hnew
      subst hre
      exact absurd hpc hty
  · intro kn hkn
    obtain ⟨hp, hc⟩ := h2 kn hkn
    constructor
    · intro pid hpid
      obtain ⟨r, hrm, hrt⟩ := hp pid hpid
      exact ⟨r, List.mem_append_left _ hrm, hrt⟩
    · intro cid hcid
      obtain ⟨r, hrm, hrt⟩ := hc cid hcid
      exact ⟨r, List.mem_append_left _ hrm, hrt⟩

theorem consistent_deleteRelation_nonpc (s : AppState) (hcons : consistent s)
    (rid hid : String) (now : Nat)
    (hty : ∀ r ∈ s.relations, r.id = rid → r.type ≠ RelationType.parentChild) :
    consistent (deleteRelation s rid hid now) := by
  obtain ⟨h1, h2⟩ := hcons
  refine consistent_ext
    { s with relations := s.relations.filter (fun r => r.id != rid) } _ rfl rfl ?_
  constructor
  · intro r hr hpc
    have hold : r ∈ s.relations := List.mem_of_mem_filter hr
    obtain ⟨⟨p, hp, hm⟩, ⟨c, hc, hm2⟩⟩ := h1 r hold hpc
    exact ⟨⟨p, hp, hm⟩, ⟨c, hc, hm2⟩⟩
  · intro kn hkn
    obtain ⟨hp, hc⟩ := h2 kn hkn
    constructor
    · intro pid hpid
      obtain ⟨r, hrm, hrt⟩ := hp pid hpid
      have hrid : r.id ≠ rid := fun hh => hty r hrm hh hrt.1
      exact ⟨r, List.mem_filter_of_mem hrm (by simpa using hrid), hrt⟩
    · intro cid hcid
      obtain ⟨r, hrm, hrt⟩ := hc cid hcid
      have hrid : r.id ≠ rid := fun hh => hty r hrm hh hrt.1
      exact ⟨r, List.mem_filter_of_mem hrm (by simpa using hrid), hrt⟩

/-! ## Claim C5 (parent-child consistency invariant) -/

/-- C5 amended: the parent-child consistency invariant is preserved by the
structural creation operations (`createRootNode`, `createChildNode` with a
fresh id) and by `addRelation`/`deleteRelation` restricted to
non-parent-child relations; generic `addRelation` with type parent-child
and `deleteRelation` of a parent-child relation do NOT preserve it (see the
counterexample), because neither touches `parentIds`/`childrenIds`. -/
theorem structuralOps_preserve_consistency (s : AppState)
    (hcons : consistent s) (hnodup : keysNodup s.nodes) :
    (∀ (id hid : String) (now : Nat) (title : String),
      mapGet s.nodes id = none →
      consistent (createRootNode s id hid now title).2) ∧
    (∀ (parentId id relationId hid : String) (now : Nat) (title : String),
      mapGet s.nodes id = none →
      consistent (createChildNode s parentId id relationId hid now title).2) ∧
    (∀ (rel : RelationInput) (id hid : String) (now : Nat),
      rel.type ≠ RelationType.parentChild →
      consistent (addRelation s rel id hid now).2) ∧
    (∀ (rid hid : String) (now : Nat),
      (∀ r ∈ s.relations, r.id = rid → r.type ≠ RelationType.parentChild) →
      consistent (deleteRelation s rid hid now)) :=
  ⟨fun id hid now title hfresh =>
      consistent_createRootNode s hcons hnodup id hid now title hfresh,
   fun parentId id relationId hid now title hfresh =>
      consistent_createChildNode s hcons hnodup parentId id relationId hid now title hfresh,
   fun rel id hid now hty => consistent_addRelation_nonpc s hcons rel id hid now hty,
   fun rid hid now hty => consistent_deleteRelation_nonpc s hcons rid hid now hty⟩

/-- Witness for the amended C5 theorem: concrete preserved calls on the
consistent two-node state and on the consistent parent-child state. -/
theorem structuralOps_preserve_consistency_witness :
    consistent twoNodeState ∧ keysNodup twoNodeState.nodes ∧
    consistent (createRootNode twoNodeState "R" "h" 0 "t").2 ∧
    consistent (createChildNode twoNodeState "A" "c" "r2" "h" 0 "t").2 ∧
    consistent (addRelation twoNodeState ⟨"A", "B", .supports, none⟩ "r3" "h" 0).2 ∧
    consistent parentChildState ∧ keysNodup parentChildState.nodes ∧
    consistent (deleteRelation parentChildState "zz" "h" 0) :=
  ⟨by decide, by decide,
   (structuralOps_preserve_consistency twoNodeState (by decide) (by decide)).1
     "R" "h" 0 "t" rfl,
   (structuralOps_preserve_consistency twoNodeState (by decide) (by decide)).2.1
     "A" "c" "r2" "h" 0 "t" rfl,
   (structuralOps_preserve_consistency twoNodeState (by decide) (by decide)).2.2.1
     ⟨"A", "B", .supports, none⟩ "r3" "h" 0 (by decide),
   by decide, by decide,
   (structuralOps_preserve_consistency parentChildState (by decide) (by decide)).2.2.2
     "zz" "h" 0 (by decide)⟩

/-! ## Composite-toggle lemmas (claims C7, C8) -/

theorem expandCompositeNode_nodes_expand (s : AppState) (cid hid : String)
    (now : Nat) (c : NodeData) (members : List String)
    (hc : mapGet s.nodes cid = some c) (hcomp : c.isComposite = true)
    (hmem : c.compositeChildren = some members) (hexp : c.expanded = false) :
    (expandCompositeNode s cid hid now).nodes =
      mapSet (updateIdx (expandMemberFn c members cid) 0 members s.nodes)
        cid { c with expanded := true } := by
  show (pushHistory _ _ _ _ _ _ _).nodes = _
  rw [pushHistory_nodes]
  simp [hc, hcomp, hmem, hexp]

theorem expandCompositeNode_nodes_collapse (s : AppState) (cid hid : String)
    (now : Nat) (c : NodeData) (members : List String)
    (hc : mapGet s.nodes cid = some c) (hcomp : c.isComposite = true)
    (hmem : c.compositeChildren = some members) (hexp : c.expanded = true) :
    (expandCompositeNode s cid hid now).nodes =
      mapSet (updateIdx (collapseMemberFn cid) 0 members s.nodes)
        cid { c with expanded := false } := by
  show (pushHistory _ _ _ _ _ _ _).nodes = _
  rw [pushHistory_nodes]
  simp [hc, hcomp, hmem, hexp]

/-- Member lookup after the expand branch, in the source's own form. -/
theorem expandCompositeNode_member_lookup (s : AppState) (cid hid : String)
    (now : Nat) (c : NodeData) (members : List String)
    (hc : mapGet s.nodes cid = some c) (hcomp : c.isComposite = true)
    (hmem : c.compositeChildren = some members) (hexp : c.expanded = false)
    (hnd : members.Nodup) (hcid : cid ∉ members)
    (i : Nat) (hi : i < members.length) :
    mapGet (expandCompositeNode s cid hid now).nodes members[i] =
      (mapGet s.nodes members[i]).map (expandMemberFn c members cid i members[i]) := by
  rw [expandCompositeNode_nodes_expand s cid hid now c members hc hcomp hmem hexp]
  have hne : ¬members[i] = cid := fun hh => hcid (hh ▸ List.getElem_mem hi)
  rw [mapGet_mapSet, if_neg hne]
  rw [updateIdx_mapGet_at (expandMemberFn c members cid) members hnd 0 s.nodes i hi]
  rw [Nat.zero_add]

/-- The source's per-member update equals: clear `hidden`, set
`compositeParent`, move to the claim's fan position. -/
theorem expandMemberFn_eq_fan (c : NodeData) (members : List String)
    (cid : String) (i : Nat) (hi : i < members.length) (mid : String)
    (child : NodeData) :
    expandMemberFn c members cid i mid child =
      { child with
        hidden := false
        compositeParent := some cid
        position := fanPosition c.position members.length i } := by
  simp only [expandMemberFn, fanPosition]
  have hsp : (60 + (members.length : ℝ) * 15) = 60 + 15 * (members.length : ℝ) := by
    ring
  rw [hsp]
  have hN : 1 ≤ members.length := by omega
  have hstep : (if members.length > 1 then
        min 180 (60 + 15 * (members.length : ℝ)) / ((members.length : ℝ) - 1)
      else 0) =
      (if members.length = 1 then 0
        else min 180 (60 + 15 * (members.length : ℝ)) / ((members.length : ℝ) - 1)) := by
    rcases Nat.eq_or_lt_of_le hN with h1 | h1
    · rw [if_neg (by omega), if_pos h1.symm]
    · rw [if_pos h1, if_neg (by omega)]
  rw [hstep]

/-- Degrees-to-radians sine comparison inside (-90°, 90°). -/
theorem sin_deg_lt (a b : ℝ) (ha : -90 ≤ a) (hab : a < b) (hb : b ≤ 90) :
    Real.sin (a * Real.pi / 180) < Real.sin (b * Real.pi / 180) := by
  have hpi := Real.pi_pos
  have hmem1 : a * Real.pi / 180 ∈ Set.Icc (-(Real.pi / 2)) (Real.pi / 2) := by
    constructor <;> nlinarith
  have hmem2 : b * Real.pi / 180 ∈ Set.Icc (-(Real.pi / 2)) (Real.pi / 2) := by
    constructor <;> nlinarith
  have hlt : a * Real.pi / 180 < b * Real.pi / 180 := by nlinarith
  exact Real.strictMonoOn_sin hmem1 hmem2 hlt

/-- In a 3-member fan the three members' y-coordinates are strictly
increasing (spread 105°, angles -52.5°, 0°, 52.5°, radius 200). -/
theorem fanPosition_y_lt3 (center : Pos) :
    (fanPosition center 3 0).y < (fanPosition center 3 1).y ∧
    (fanPosition center 3 1).y < (fanPosition center 3 2).y := by
  have hS : min (180 : ℝ) (60 + 15 * ((3 : ℕ) : ℝ)) = 105 := by
    push_cast; norm_num
  have hR : max (200 : ℝ) (200 + (((3 : ℕ) : ℝ) - 3) * 30) = 200 := by
    push_cast; norm_num
  have hstep : (if (3 : ℕ) = 1 then (0 : ℝ)
      else min (180 : ℝ) (60 + 15 * ((3 : ℕ) : ℝ)) / (((3 : ℕ) : ℝ) - 1)) = 105 / 2 := by
    rw [if_neg (by norm_num), hS]
    push_cast; norm_num
  simp only [fanPosition]
  rw [hstep, hS, hR]
  constructor
  · have hsin := sin_deg_lt (-105 / 2 + 105 / 2 * ((0 : ℕ) : ℝ))
      (-105 / 2 + 105 / 2 * ((1 : ℕ) : ℝ))
      (by push_cast; norm_num) (by push_cast; norm_num) (by push_cast; norm_num)
    nlinarith [hsin]
  · have hsin := sin_deg_lt (-105 / 2 + 105 / 2 * ((1 : ℕ) : ℝ))
      (-105 / 2 + 105 / 2 * ((2 : ℕ) : ℝ))
      (by push_cast; norm_num) (by push_cast; norm_num) (by push_cast; norm_num)
    nlinarith [hsin]

/-! ## Claim C7 (fan layout on expand) -/

/-- C7: expanding a collapsed composite places member `i` at
`C + radius*(cos θᵢ, sin θᵢ)` with the claim's radius/spread/step/angle
formulas, clears `hidden` and sets `compositeParent`; and on the concrete
3-member composite (spread 105°, radius 200) the three members end at
pairwise distinct positions. -/
theorem expandCompositeNode_fan_layout :
    (∀ (s : AppState) (cid hid : String) (now : Nat) (c : NodeData)
       (members : List String) (i : Nat) (hi : i < members.length)
       (child : NodeData),
      mapGet s.nodes cid = some c →
      c.isComposite = true →
      c.compositeChildren = some members →
      c.expanded = false →
      members.Nodup →
      cid ∉ members →
      mapGet s.nodes members[i] = some child →
      mapGet (expandCompositeNode s cid hid now).nodes members[i] =
        some { child with
               hidden := false
               compositeParent := some cid
               position := fanPosition c.position members.length i }) ∧
    ((mapGet (expandCompositeNode compositeFanState "K" "h" 0).nodes "m0").map
        (·.position) ≠
      (mapGet (expandCompositeNode compositeFanState "K" "h" 0).nodes "m1").map
        (·.position) ∧
     (mapGet (expandCompositeNode compositeFanState "K" "h" 0).nodes "m1").map
        (·.position) ≠
      (mapGet (expandCompositeNode compositeFanState "K" "h" 0).nodes "m2").map
        (·.position) ∧
     (mapGet (expandCompositeNode compositeFanState "K" "h" 0).nodes "m0").map
        (·.position) ≠
      (mapGet (expandCompositeNode compositeFanState "K" "h" 0).nodes "m2").map
        (·.position)) := by
  constructor
  · intro s cid hid now c members i hi child hc hcomp hmem hexp hnd hcid hchild
    rw [expandCompositeNode_member_lookup s cid hid now c members hc hcomp hmem
      hexp hnd hcid i hi, hchild]
    simp only [Option.map_some']
    rw [expandMemberFn_eq_fan c members cid i hi members[i] child]
  · have hK : mapGet compositeFanState.nodes "K" = some
        { mkNode "K" [] [] with
          isComposite := true
          compositeChildren := some ["m0", "m1", "m2"]
          expanded := false } := rfl
    have hpos : ∀ (i : Nat), i < 3 → ∀ (mid : String),
        mapGet compositeFanState.nodes mid =
          some { mkNode mid [] [] with hidden := true, compositeParent := some "K" } →
        mapGet (expandCompositeNode compositeFanState "K" "h" 0).nodes mid =
          (mapGet compositeFanState.nodes mid).map
            (expandMemberFn { mkNode "K" [] [] with
              isComposite := true
              compositeChildren := some ["m0", "m1", "m2"]
              expanded := false } ["m0", "m1", "m2"] "K" i mid) →
        (mapGet (expandCompositeNode compositeFanState "K" "h" 0).nodes mid).map
          (·.position) = some (fanPosition ⟨0, 0⟩ 3 i) := by
      intro i hi mid hmid hl
      rw [hl, hmid, Option.map_some', Option.map_some']
      rw [expandMemberFn_eq_fan _ _ _ i (by simpa using hi) mid _]
      rfl
    have hp0 := hpos 0 (by norm_num) "m0" rfl
      (expandCompositeNode_member_lookup compositeFanState "K" "h" 0 _
        ["m0", "m1", "m2"] hK rfl rfl rfl (by decide) (by decide) 0 (by decide))
    have hp1 := hpos 1 (by norm_num) "m1" rfl
      (expandCompositeNode_member_lookup compositeFanState "K" "h" 0 _
        ["m0", "m1", "m2"] hK rfl rfl rfl (by decide) (by decide) 1 (by decide))
    have hp2 := hpos 2 (by norm_num) "m2" rfl
      (expandCompositeNode_member_lookup compositeFanState "K" "h" 0 _
        ["m0", "m1", "m2"] hK rfl rfl rfl (by decide) (by decide) 2 (by decide))
    obtain ⟨h01, h12⟩ := fanPosition_y_lt3 ⟨0, 0⟩
    have hy : ∀ i j : Nat, (fanPosition ⟨0, 0⟩ 3 i).y < (fanPosition ⟨0, 0⟩ 3 j).y →
        fanPosition (⟨0, 0⟩ : Pos) 3 i ≠ fanPosition ⟨0, 0⟩ 3 j :=
      fun i j hlt heq => absurd (congrArg Pos.y heq) (ne_of_lt hlt)
    refine ⟨?_, ?_, ?_⟩
    · rw [hp0, hp1]
      simp only [ne_eq, Option.some.injEq]
      exact hy 0 1 h01
    · rw [hp1, hp2]
      simp only [ne_eq, Option.some.injEq]
      exact hy 1 2 h12
    · rw [hp0, hp2]
      simp only [ne_eq, Option.some.injEq]
      exact hy 0 2 (h01.trans h12)

/-- Witness for C7's general part: member `"m1"` of the concrete 3-member
composite lands at the fan position of index 1. -/
theorem expandCompositeNode_fan_layout_witness :
    (["m0", "m1", "m2"] : List String).Nodup ∧ ("K" : String) ∉ ["m0", "m1", "m2"] ∧
    mapGet (expandCompositeNode compositeFanState "K" "h" 0).nodes "m1" =
      some { mkNode "m1" [] [] with
             hidden := false
             compositeParent := some "K"
             position := fanPosition ⟨0, 0⟩ 3 1 } :=
  ⟨by decide, by decide,
   expandCompositeNode_fan_layout.1 compositeFanState "K" "h" 0 _
     ["m0", "m1", "m2"] 1 (by decide)
     { mkNode "m1" [] [] with hidden := true, compositeParent := some "K" }
     rfl rfl rfl rfl (by decide) (by decide) rfl⟩

/-- Member lookup after the collapse branch, in the source's own form. -/
theorem expandCompositeNode_member_lookup_collapse (s : AppState)
    (cid hid : String) (now : Nat) (c : NodeData) (members : List String)
    (hc : mapGet s.nodes cid = some c) (hcomp : c.isComposite = true)
    (hmem : c.compositeChildren = some members) (hexp : c.expanded = true)
    (hnd : members.Nodup) (hcid : cid ∉ members)
    (i : Nat) (hi : i < members.length) :
    mapGet (expandCompositeNode s cid hid now).nodes members[i] =
      (mapGet s.nodes members[i]).map (collapseMemberFn cid i members[i]) := by
  rw [expandCompositeNode_nodes_collapse s cid hid now c members hc hcomp hmem hexp]
  have hne : ¬members[i] = cid := fun hh => hcid (hh ▸ List.getElem_mem hi)
  rw [mapGet_mapSet, if_neg hne]
  rw [updateIdx_mapGet_at (collapseMemberFn cid) members hnd 0 s.nodes i hi]
  rw [Nat.zero_add]

/-- Composite-node lookup after the expand branch. -/
theorem expandCompositeNode_node_lookup_expand (s : AppState)
    (cid hid : String) (now : Nat) (c : NodeData) (members : List String)
    (hc : mapGet s.nodes cid = some c) (hcomp : c.isComposite = true)
    (hmem : c.compositeChildren = some members) (hexp : c.expanded = false) :
    mapGet (expandCompositeNode s cid hid now).nodes cid =
      some { c with expanded := true } := by
  rw [expandCompositeNode_nodes_expand s cid hid now c members hc hcomp hmem hexp]
  rw [mapGet_mapSet, if_pos rfl]

/-- Composite-node lookup after the collapse branch. -/
theorem expandCompositeNode_node_lookup_collapse (s : AppState)
    (cid hid : String) (now : Nat) (c : NodeData) (members : List String)
    (hc : mapGet s.nodes cid = some c) (hcomp : c.isComposite = true)
    (hmem : c.compositeChildren = some members) (hexp : c.expanded = true) :
    mapGet (expandCompositeNode s cid hid now).nodes cid =
      some { c with expanded := false } := by
  rw [expandCompositeNode_nodes_collapse s cid hid now c members hc hcomp hmem hexp]
  rw [mapGet_mapSet, if_pos rfl]

/-! ## Claim C8 (composite toggle inverse law) -/

/-- C8 amended: if the members' visibility agrees with the composite's
state on entry (each present member's `hidden` equals the negation of the
composite's `expanded`, the state every toggle and `createCompositeNode`
produce), then toggling twice restores the composite's `expanded` flag and
every member's `hidden` flag exactly.  Without that proviso the round trip
fails (see the counterexample). -/
theorem expandCompositeNode_double_toggle_amended (s : AppState)
    (cid hid1 hid2 : String) (now1 now2 : Nat) (c : NodeData)
    (members : List String)
    (hc : mapGet s.nodes cid = some c)
    (hcomp : c.isComposite = true)
    (hmem : c.compositeChildren = some members)
    (hnd : members.Nodup) (hcid : cid ∉ members)
    (hvis : ∀ m ∈ members, ∀ nd, mapGet s.nodes m = some nd →
      nd.hidden = !c.expanded) :
    ((mapGet (expandCompositeNode (expandCompositeNode s cid hid1 now1)
        cid hid2 now2).nodes cid).map (·.expanded) = some c.expanded) ∧
    (∀ m ∈ members,
      (mapGet (expandCompositeNode (expandCompositeNode s cid hid1 now1)
          cid hid2 now2).nodes m).map (·.hidden) =
        (mapGet s.nodes m).map (·.hidden)) := by
  rcases hexp : c.expanded with _ | _
  · -- collapsed on entry: expand then collapse
    have hc1 : mapGet (expandCompositeNode s cid hid1 now1).nodes cid =
        some { c with expanded := true } :=
      expandCompositeNode_node_lookup_expand s cid hid1 now1 c members
        hc hcomp hmem hexp
    have hKf : mapGet (expandCompositeNode (expandCompositeNode s cid hid1 now1)
        cid hid2 now2).nodes cid =
        some { { c with expanded := true } with expanded := false } :=
      expandCompositeNode_node_lookup_collapse _ cid hid2 now2 _ members
        hc1 hcomp hmem rfl
    constructor
    · rw [hKf]; rfl
    · intro m hm
      obtain ⟨i, hi, hmi⟩ := List.getElem_of_mem hm
      subst hmi
      have hm1 := expandCompositeNode_member_lookup s cid hid1 now1 c members
        hc hcomp hmem hexp hnd hcid i hi
      have hm2 := expandCompositeNode_member_lookup_collapse
        (expandCompositeNode s cid hid1 now1) cid hid2 now2 _ members
        hc1 hcomp hmem rfl hnd hcid i hi
      rw [hm2, hm1]
      rcases hbase : mapGet s.nodes members[i] with _ | nd
      · rfl
      · have hh : nd.hidden = !c.expanded :=
          hvis members[i] (List.getElem_mem hi) nd hbase


        rw [hexp] at hh
        simp only [Option.map_some']
        show some true = some nd.hidden
        rw [hh]
        rfl
  · -- expanded on entry: collapse then expand
    have hc1 : mapGet (expandCompositeNode s cid hid1 now1).nodes cid =
        some { c with expanded := false } :=
      expandCompositeNode_node_lookup_collapse s cid hid1 now1 c members
        hc hcomp hmem hexp
    have hKf : mapGet (expandCompositeNode (expandCompositeNode s cid hid1 now1)
        cid hid2 now2).nodes cid =
        some { { c with expanded := false } with expanded := true } :=
      expandCompositeNode_node_lookup_expand _ cid hid2 now2 _ members
        hc1 hcomp hmem rfl
    constructor
    · rw [hKf]; rfl
    · intro m hm
      obtain ⟨i, hi, hmi⟩ := List.getElem_of_mem hm
      subst hmi
      have hm1 := expandCompositeNode_member_lookup_collapse s cid hid1 now1
        c members hc hcomp hmem hexp hnd hcid i hi
      have hm2 := expandCompositeNode_member_lookup
        (expandCompositeNode s cid hid1 now1) cid hid2 now2 _ members
        hc1 hcomp hmem rfl hnd hcid i hi
      rw [hm2, hm1]
      rcases hbase : mapGet s.nodes members[i] with _ | nd
      · rfl
      · have hh : nd.hidden = !c.expanded :=
          hvis members[i] (List.getElem_mem hi) nd hbase
        rw [hexp] at hh
        simp only [Option.map_some']
        show some false = some nd.hidden
        rw [hh]
        rfl

/-- Witness for the amended C8 theorem: double toggle on the concrete
consistent 3-member composite restores the visibility state. -/
theorem expandCompositeNode_double_toggle_amended_witness :
    (["m0", "m1", "m2"] : List String).Nodup ∧
    (mapGet (expandCompositeNode (expandCompositeNode compositeFanState
        "K" "h1" 0) "K" "h2" 0).nodes "K").map (·.expanded) = some false ∧
    (∀ m ∈ (["m0", "m1", "m2"] : List String),
      (mapGet (expandCompositeNode (expandCompositeNode compositeFanState
          "K" "h1" 0) "K" "h2" 0).nodes m).map (·.hidden) =
        (mapGet compositeFanState.nodes m).map (·.hidden)) :=
  ⟨by decide,
   (expandCompositeNode_double_toggle_amended compositeFanState "K" "h1" "h2"
      0 0 _ ["m0", "m1", "m2"] rfl rfl rfl (by decide) (by decide)
      (by intro m hm nd hnd
          fin_cases hm <;>
            · injection hnd with h
              rw [← h]
              rfl)).1,
   (expandCompositeNode_double_toggle_amended compositeFanState "K" "h1" "h2"
      0 0 _ ["m0", "m1", "m2"] rfl rfl rfl (by decide) (by decide)
      (by intro m hm nd hnd
          fin_cases hm <;>
            · injection hnd with h
              rw [← h]
              rfl)).2⟩

end MindMap
